import Mathlib

/-!
Verification development for the chaptersaw repository
(src/chaptersaw/extractor.py, models.py, exceptions.py).

The extraction pipeline is shallowly embedded as pure Lean functions.
External-world effects (file existence, the ffprobe/ffmpeg/mkvpropedit
processes) are abstracted into environment records whose fields describe
the observable outcome of each external invocation; the embedded
functions thread those outcomes exactly as the Python control flow does.
Python exceptions become `Except ChapterError`; probe times (Python
floats) are abstracted to `Int` since no claim computes with them; file
paths are plain strings and the `Path.stem` of a path is abstracted to
the path string itself (segment and output names are built from it the
way the source builds them from the stem).
-/

namespace Chaptersaw

/-- Error taxonomy of exceptions.py plus the two non-package exceptions the
extractor code raises or catches: Python `ValueError` and `re.error`
(the invalid-regex error). -/
inductive ChapterError where
  | extractionError (msg : String)
  | unsupportedFormat (msg : String)
  | valueError (msg : String)
  | regexError (msg : String)
deriving DecidableEq

/-- `str(e)` of an embedded exception. -/
def ChapterError.text : ChapterError → String
  | .extractionError m => m
  | .unsupportedFormat m => m
  | .valueError m => m
  | .regexError m => m

/-- Decidable equality for Except values, so concrete pipeline outcomes can
be checked by evaluation. -/
instance exceptDecEq {e a : Type} [DecidableEq e] [DecidableEq a] :
    DecidableEq (Except e a)
  | .error x, .error y =>
    match decEq x y with
    | isTrue h => isTrue (by rw [h])
    | isFalse h => isFalse (fun hh => h (Except.error.inj hh))
  | .error _, .ok _ => isFalse (fun hh => Except.noConfusion hh)
  | .ok _, .error _ => isFalse (fun hh => Except.noConfusion hh)
  | .ok x, .ok y =>
    match decEq x y with
    | isTrue h => isTrue (by rw [h])
    | isFalse h => isFalse (fun hh => h (Except.ok.inj hh))

/-- models.Chapter (frozen dataclass): equality is field equality. -/
structure Chapter where
  title : String
  start_time : Int
  end_time : Int
  index : Option Nat := none
deriving DecidableEq

/-- models.Track (frozen dataclass). -/
structure Track where
  id : Nat
  type : String
  codec : String
  language : Option String := none
  name : Option String := none
  default : Bool := false
  forced : Bool := false
deriving DecidableEq

/-- models.ExtractionResult (mutable accumulator, one per input file). -/
structure ExtractionResult where
  source_file : String
  output_file : Option String := none
  chapters_found : Nat := 0
  chapters_matched : Nat := 0
  chapters_extracted : List Chapter := []
  success : Bool := true
  error_message : Option String := none
deriving DecidableEq

/-- One probed chapter record before title defaulting: `tags.get("title")`
is `titleTag` (`none` when the tags dictionary has no "title" key, `some s`
when it maps "title" to `s`, including `some ""`). -/
structure RawChapter where
  titleTag : Option String
  start_time : Int
  end_time : Int
deriving DecidableEq

/-- The title-defaulting loop body of ChapterExtractor.get_chapters:
`tags.get("title", f"Chapter {idx + 1}")` with the enumerate index. -/
def chapterFromRaw (idx : Nat) (rc : RawChapter) : Chapter :=
  { title := rc.titleTag.getD ("Chapter " ++ toString (idx + 1)),
    start_time := rc.start_time,
    end_time := rc.end_time,
    index := some idx }

/-- The `for idx, chapter_data in enumerate(...)` loop of get_chapters. -/
def chaptersFromProbeAux (idx : Nat) : List RawChapter → List Chapter
  | [] => []
  | rc :: rest => chapterFromRaw idx rc :: chaptersFromProbeAux (idx + 1) rest

/-- ChapterExtractor.get_chapters, restricted to its pure part: turning the
parsed probe output into the chapter list (existence check and process
errors are handled by the pipeline environment). -/
def chaptersFromProbe (raws : List RawChapter) : List Chapter :=
  chaptersFromProbeAux 0 raws

/-- Python str.lower, character by character. -/
def strLower (s : String) : String := String.mk (s.data.map Char.toLower)

/-- Does `hay` start with `needle`? -/
def charsStart : List Char → List Char → Bool
  | [], _ => true
  | _ :: _, [] => false
  | a :: as, b :: bs => a == b && charsStart as bs

/-- Does `hay` contain `needle` as a contiguous substring (Python `in`)? -/
def charsContain (needle : List Char) : List Char → Bool
  | [] => needle.isEmpty
  | b :: bs => charsStart needle (b :: bs) || charsContain needle bs

/-- Does `hay` end with `needle`? -/
def charsEnd (needle hay : List Char) : Bool :=
  charsStart needle.reverse hay.reverse

/-- Python `keyword in title` (substring containment), with the
case-insensitive variant lower-casing both sides as the source does. -/
def keywordHit (case_sensitive : Bool) (keyword title : String) : Bool :=
  if case_sensitive then charsContain keyword.data title.data
  else charsContain (strLower keyword).data (strLower title).data

/-- ChapterExtractor.filter_chapters_by_keyword: matches by substring; in
exclude mode returns the chapters not in the matched set (Chapter equality
is field equality, mirroring the frozen dataclass in a Python set). -/
def filter_chapters_by_keyword (chapters : List Chapter) (keyword : String)
    (case_sensitive : Bool) (exclude : Bool) : List Chapter :=
  let ms := chapters.filter (fun ch => keywordHit case_sensitive keyword ch.title)
  if exclude then chapters.filter (fun ch => decide (ch ∉ ms))
  else ms

/-- An abstract regular-expression engine standing for Python `re`:
`compiles p` says whether `re.compile(p)` succeeds, and `smatch p cs t`
is the boolean outcome of `compiled.search(t)` where case-insensitivity
was requested through the compile flag `cs`. -/
structure RegexEngine where
  compiles : String → Bool
  smatch : String → Bool → String → Bool

/-- ChapterExtractor.filter_chapters_by_regex: compiling an invalid pattern
raises `re.error` (the regexError case), otherwise the chapters are
filtered by unanchored search. -/
def filter_chapters_by_regex (re : RegexEngine) (chapters : List Chapter)
    (pat : String) (case_sensitive : Bool) (exclude : Bool) :
    Except ChapterError (List Chapter) :=
  if re.compiles pat then
    if exclude then
      .ok (chapters.filter (fun ch => !(re.smatch pat case_sensitive ch.title)))
    else
      .ok (chapters.filter (fun ch => re.smatch pat case_sensitive ch.title))
  else
    .error (.regexError ("invalid pattern " ++ pat))

/-- Python truthiness of an optional string argument: present and nonempty. -/
def isTruthyOpt : Option String → Bool
  | none => false
  | some s => !s.isEmpty

/-- ChapterExtractor._filter_chapters: regex wins over keyword (`if pattern:`
then `elif keyword:`), and supplying neither raises ValueError. -/
def filterChaptersDispatch (re : RegexEngine) (chapters : List Chapter)
    (keyword pat : Option String) (case_sensitive exclude : Bool) :
    Except ChapterError (List Chapter) :=
  if isTruthyOpt pat then
    filter_chapters_by_regex re chapters (pat.getD "") case_sensitive exclude
  else if isTruthyOpt keyword then
    .ok (filter_chapters_by_keyword chapters (keyword.getD "") case_sensitive exclude)
  else
    .error (.valueError "Either keyword or pattern must be provided")

/-- Observable outcomes of the external world for one pipeline invocation:
which input paths exist, what ffprobe reports for each (parsed chapter
records, or the ChapterExtractionError message get_chapters raises),
whether the ffmpeg cut of chapter ordinal `k` of a file succeeds and the
stderr it produces when it fails, and whether the ffmpeg concat of a given
segment list into a given output succeeds. -/
structure Env where
  fileExists : String → Bool
  probe : String → Except String (List RawChapter)
  extractOk : String → Nat → Chapter → Bool
  extractStderr : String → Nat → Chapter → String
  mergeOk : List String → String → Bool

/-- The deterministic temporary segment name
`f"{input_path.stem}_segment_{ch_idx}.mkv"` (the stem abstracted to the
path string). -/
def segName (file : String) (chIdx : Nat) : String :=
  file ++ "_segment_" ++ toString chIdx ++ ".mkv"

/-- The message of the ChapterExtractionError _extract_segment raises on a
non-zero ffmpeg exit (apostrophes of the original f-string dropped). -/
def extractFailMsg (ch : Chapter) (stderr : String) : String :=
  "Failed to extract chapter " ++ ch.title ++ ": " ++ stderr

/-- ChapterExtractor._merge_segments: raises on an empty segment list, then
on a non-zero ffmpeg concat exit. -/
def mergeSegmentsModel (env : Env) (segment_files : List String)
    (output_file : String) : Except ChapterError Unit :=
  if segment_files.isEmpty then .error (.extractionError "No segments to merge")
  else if env.mergeOk segment_files output_file then .ok ()
  else .error (.extractionError "Failed to merge segments")

/-- Update the first result whose source_file is `file`, mirroring
`next(r for r in results if r.source_file == input_path)` followed by
field mutation. -/
def updateResult (file : String) (g : ExtractionResult → ExtractionResult) :
    List ExtractionResult → List ExtractionResult
  | [] => []
  | r :: rs =>
      if r.source_file = file then g r :: rs
      else r :: updateResult file g rs

/-- The Phase-1 body of extract_and_merge for a single existing-or-not input
file: returns the file's ExtractionResult together with its matched
chapters when it has at least one match, or propagates the
ChapterExtractionError that aborts the run (probe failure or zero probed
chapters). A filter error that is not a ChapterExtractionError is recorded
on the result and the scan continues. -/
def phase1Step (env : Env) (re : RegexEngine) (keyword pat : Option String)
    (case_sensitive exclude : Bool) (f : String) :
    Except ChapterError (ExtractionResult × Option (List Chapter)) :=
  if env.fileExists f then
    match env.probe f with
    | .error m => .error (.extractionError m)
    | .ok raws =>
      if (chaptersFromProbe raws).length = 0 then
        .error (.extractionError ("No chapter information found in " ++ f))
      else
        match filterChaptersDispatch re (chaptersFromProbe raws) keyword pat
            case_sensitive exclude with
        | .error (.extractionError m) => .error (.extractionError m)
        | .error e =>
            .ok ({ source_file := f, chapters_found := (chaptersFromProbe raws).length,
                   success := false, error_message := some e.text }, none)
        | .ok matching =>
            .ok ({ source_file := f, chapters_found := (chaptersFromProbe raws).length,
                   chapters_matched := matching.length },
                 if matching.isEmpty then none else some matching)
  else
    .ok ({ source_file := f, success := false,
           error_message := some "File not found" }, none)

/-- Phase 1 of extract_and_merge over the whole input list: the per-file
results in input order, the (file, matched chapters) pairs of files with
at least one match in input order, and the total match count. -/
def phase1 (env : Env) (re : RegexEngine) (keyword pat : Option String)
    (case_sensitive exclude : Bool) :
    List String →
      Except ChapterError
        (List ExtractionResult × List (String × List Chapter) × Nat)
  | [] => .ok ([], [], 0)
  | f :: rest =>
    match phase1Step env re keyword pat case_sensitive exclude f with
    | .error e => .error e
    | .ok (r, opt) =>
      match phase1 env re keyword pat case_sensitive exclude rest with
      | .error e => .error e
      | .ok (rs, fcs, tm) =>
        match opt with
        | none => .ok (r :: rs, fcs, tm)
        | some matching => .ok (r :: rs, (f, matching) :: fcs, tm + matching.length)

/-- The inner chapter loop of _extract_segments_sequential for one file:
segments produced (in order), chapters successfully extracted, and the
error message of the first failing extraction if any (the exception leaves
the loop, so nothing after the failure is attempted). -/
def extractFileSeq (env : Env) (f : String) : Nat → List Chapter →
    List String × List Chapter × Option String
  | _, [] => ([], [], none)
  | ci, ch :: rest =>
    if env.extractOk f ci ch then
      let t := extractFileSeq env f (ci + 1) rest
      (segName f ci :: t.1, ch :: t.2.1, t.2.2)
    else
      ([], [], some (extractFailMsg ch (env.extractStderr f ci ch)))

/-- The result mutations of one file of _extract_segments_sequential: the
extracted chapters are appended to the file's result, and if an extraction
failed the result is additionally marked failed with that message. -/
def seqUpdate (env : Env) (f : String) (chs : List Chapter)
    (results : List ExtractionResult) : List ExtractionResult :=
  match (extractFileSeq env f 0 chs).2.2 with
  | none =>
    updateResult f
      (fun r => { r with
        chapters_extracted := r.chapters_extracted ++ (extractFileSeq env f 0 chs).2.1 })
      results
  | some m =>
    updateResult f
      (fun r => { r with success := false, error_message := some m })
      (updateResult f
        (fun r => { r with
          chapters_extracted := r.chapters_extracted ++ (extractFileSeq env f 0 chs).2.1 })
        results)

/-- ChapterExtractor._extract_segments_sequential: per file, extract the
matched chapters in order, appending each extracted chapter to that file's
result; on a failure mark the file's result failed and continue with the
next file. Returns all produced segment paths in order plus the updated
results. -/
def extractSegmentsSequential (env : Env) :
    List (String × List Chapter) → List ExtractionResult →
      List String × List ExtractionResult
  | [], results => ([], results)
  | (f, chs) :: rest, results =>
    ((extractFileSeq env f 0 chs).1
        ++ (extractSegmentsSequential env rest (seqUpdate env f chs results)).1,
     (extractSegmentsSequential env rest (seqUpdate env f chs results)).2)

/-- One parallel extraction task: the submission-time global sequence
number, source file, per-file chapter ordinal, the chapter, and the
deterministic segment path. -/
structure Task where
  idx : Nat
  file : String
  chIdx : Nat
  chapter : Chapter
  seg : String
deriving DecidableEq

/-- The inner task-building loop of _extract_segments_parallel for one
file, with the running global index `g` and chapter ordinal `ci`. -/
def tasksForFile (g : Nat) (f : String) : Nat → List Chapter → List Task
  | _, [] => []
  | ci, ch :: rest =>
      { idx := g, file := f, chIdx := ci, chapter := ch, seg := segName f ci }
        :: tasksForFile (g + 1) f (ci + 1) rest

/-- The task-building loop of _extract_segments_parallel over all files. -/
def buildTasksAux (g : Nat) : List (String × List Chapter) → List Task
  | [] => []
  | (f, chs) :: rest =>
      tasksForFile g f 0 chs ++ buildTasksAux (g + chs.length) rest

/-- All extraction tasks, tagged with submission-order global indices
starting at 0. -/
def buildTasks (fcs : List (String × List Chapter)) : List Task :=
  buildTasksAux 0 fcs

/-- Python dict assignment `d[k] = v` on an insertion-ordered association
list: an existing key keeps its position and takes the new value, a fresh
key is appended. -/
def dictInsert {α β : Type} [DecidableEq α] (k : α) (v : β) :
    List (α × β) → List (α × β)
  | [] => [(k, v)]
  | (k0, v0) :: rest =>
      if k0 = k then (k0, v) :: rest else (k0, v0) :: dictInsert k v rest

/-- The as_completed loop of _extract_segments_parallel, processing the
completed tasks in the (arbitrary) completion order given by `comps`:
a successful task records its segment under its global index and appends
its chapter to its file's result; a failed task records its error message
under its file in the extraction_errors dict. -/
def processCompletions (env : Env) :
    List Task → List (Nat × String) → List (String × String) →
      List ExtractionResult →
      List (Nat × String) × List (String × String) × List ExtractionResult
  | [], segres, errs, results => (segres, errs, results)
  | t :: rest, segres, errs, results =>
    if env.extractOk t.file t.chIdx t.chapter then
      processCompletions env rest (dictInsert t.idx t.seg segres) errs
        (updateResult t.file
          (fun r => { r with chapters_extracted := r.chapters_extracted ++ [t.chapter] })
          results)
    else
      processCompletions env rest segres
        (dictInsert t.file
          (extractFailMsg t.chapter (env.extractStderr t.file t.chIdx t.chapter)) errs)
        results

/-- The final marking loop of _extract_segments_parallel: each file in the
extraction_errors dict has its result marked failed with that message. -/
def markFailed (errs : List (String × String)) (rs : List ExtractionResult) :
    List ExtractionResult :=
  errs.foldl
    (fun rs e => updateResult e.1
      (fun r => { r with success := false, error_message := some e.2 }) rs)
    rs

/-- ChapterExtractor._extract_segments_parallel as a function of the
completion order `comps` (in any real run a permutation of the built task
list): process completions, mark each file recorded in extraction_errors
as failed, and return the recorded segments sorted by their global
sequence number. -/
def extractSegmentsParallel (env : Env) (_fcs : List (String × List Chapter))
    (results : List ExtractionResult) (comps : List Task) :
    List String × List ExtractionResult :=
  ((List.insertionSort (fun a b => a ≤ b)
      ((processCompletions env comps [] [] results).1.map Prod.fst)).filterMap
    (fun i => (processCompletions env comps [] [] results).1.lookup i),
   markFailed (processCompletions env comps [] [] results).2.1
     (processCompletions env comps [] [] results).2.2)

/-- Phase 2 of extract_and_merge: segment extraction in sequential or
parallel mode (`comps` is the completion order of the parallel run). -/
def phase2Segments (env : Env) (fcs : List (String × List Chapter))
    (results : List ExtractionResult) (comps : List Task) (par : Bool) :
    List String × List ExtractionResult :=
  if par then extractSegmentsParallel env fcs results comps
  else extractSegmentsSequential env fcs results

/-- The output_file assignment at the end of extract_and_merge: the merged
path goes to every result that is still successful and extracted at least
one chapter. -/
def assignOutput (output_file : String) (rs : List ExtractionResult) :
    List ExtractionResult :=
  rs.map (fun r =>
    if r.success && !r.chapters_extracted.isEmpty then
      { r with output_file := some output_file }
    else r)

/-- ChapterExtractor.extract_and_merge, instrumented with the list of
ffmpeg concat invocations it performs (segment list and target of each
call) so that "no output is produced" is observable. Phase 1 scans all
files (aborting on ChapterExtractionError), the zero-total-match guard
aborts, Phase 2 extracts sequentially or in the completion order `comps`,
and the merge plus output_file assignment run only when at least one
segment was produced. -/
def extract_and_merge_traced (env : Env) (re : RegexEngine)
    (input_files : List String) (output_file : String)
    (keyword pat : Option String) (case_sensitive exclude par : Bool)
    (comps : List Task) :
    Except ChapterError (List ExtractionResult) × List (List String × String) :=
  if !isTruthyOpt keyword && !isTruthyOpt pat then
    (.error (.valueError "Either keyword or pattern must be provided"), [])
  else
    match phase1 env re keyword pat case_sensitive exclude input_files with
    | .error e => (.error e, [])
    | .ok (results, fcs, tm) =>
      if tm = 0 then
        (.error (.extractionError
          "No chapters matching filter found in any input files"), [])
      else
        if (phase2Segments env fcs results comps par).1.isEmpty then
          (.ok (phase2Segments env fcs results comps par).2, [])
        else
          match mergeSegmentsModel env (phase2Segments env fcs results comps par).1
              output_file with
          | .error e =>
            (.error e, [((phase2Segments env fcs results comps par).1, output_file)])
          | .ok _ =>
            (.ok (assignOutput output_file (phase2Segments env fcs results comps par).2),
             [((phase2Segments env fcs results comps par).1, output_file)])

/-- The per-file chapter loop of extract_to_separate_files: unlike the
sequential Phase 2 of extract_and_merge there is no local recovery here —
the first failing extraction raises ChapterExtractionError. -/
def extractFileSeqStrict (env : Env) (f : String) : Nat → List Chapter →
    Except ChapterError (List String)
  | _, [] => .ok []
  | ci, ch :: rest =>
    if env.extractOk f ci ch then
      match extractFileSeqStrict env f (ci + 1) rest with
      | .error e => .error e
      | .ok segs => .ok (segName f ci :: segs)
    else
      .error (.extractionError
        (extractFailMsg ch (env.extractStderr f ci ch)))

/-- The output name `{stem}{suffix}.mkv`, written to output_dir when given
and beside the source otherwise. -/
def sepOutName (output_dir : Option String) (f suffix : String) : String :=
  match output_dir with
  | some d => d ++ "/" ++ f ++ suffix ++ ".mkv"
  | none => f ++ suffix ++ ".mkv"

/-- The per-file loop of ChapterExtractor.extract_to_separate_files: the
`except ChapterExtractionError: raise` clause re-raises probe failures,
zero-chapter files, segment-extraction failures and merge failures, while
a non-ChapterExtractionError filter failure is recorded and the loop
continues; files with zero matches are recorded and produce no output. -/
def sepGo (env : Env) (re : RegexEngine) (keyword pat : Option String)
    (output_dir : Option String) (case_sensitive exclude : Bool)
    (suffix : String) :
    List String → Except ChapterError (List ExtractionResult)
  | [] => .ok []
  | f :: rest =>
    if env.fileExists f then
      match env.probe f with
      | .error m => .error (.extractionError m)
      | .ok raws =>
        if (chaptersFromProbe raws).length = 0 then
          .error (.extractionError ("No chapter information found in " ++ f))
        else
          match filterChaptersDispatch re (chaptersFromProbe raws) keyword pat
              case_sensitive exclude with
          | .error (.extractionError m) => .error (.extractionError m)
          | .error e =>
            match sepGo env re keyword pat output_dir case_sensitive exclude suffix rest with
            | .error e2 => .error e2
            | .ok rs =>
              .ok ({ source_file := f, chapters_found := (chaptersFromProbe raws).length,
                     success := false, error_message := some e.text } :: rs)
          | .ok matching =>
            if matching.isEmpty then
              match sepGo env re keyword pat output_dir case_sensitive exclude suffix rest with
              | .error e2 => .error e2
              | .ok rs =>
                .ok ({ source_file := f, chapters_found := (chaptersFromProbe raws).length,
                       chapters_matched := matching.length } :: rs)
            else
              match extractFileSeqStrict env f 0 matching with
              | .error e => .error e
              | .ok segs =>
                match mergeSegmentsModel env segs (sepOutName output_dir f suffix) with
                | .error e => .error e
                | .ok _ =>
                  match sepGo env re keyword pat output_dir case_sensitive exclude suffix rest with
                  | .error e2 => .error e2
                  | .ok rs =>
                    .ok ({ source_file := f, chapters_found := (chaptersFromProbe raws).length,
                           chapters_matched := matching.length,
                           chapters_extracted := matching,
                           output_file := some (sepOutName output_dir f suffix) } :: rs)
    else
      match sepGo env re keyword pat output_dir case_sensitive exclude suffix rest with
      | .error e2 => .error e2
      | .ok rs =>
        .ok ({ source_file := f, success := false,
               error_message := some "File not found" } :: rs)

/-- ChapterExtractor.extract_to_separate_files. -/
def extract_to_separate_files (env : Env) (re : RegexEngine)
    (input_files : List String) (keyword pat : Option String)
    (output_dir : Option String) (case_sensitive exclude : Bool)
    (suffix : String) : Except ChapterError (List ExtractionResult) :=
  if !isTruthyOpt keyword && !isTruthyOpt pat then
    .error (.valueError "Either keyword or pattern must be provided")
  else
    sepGo env re keyword pat output_dir case_sensitive exclude suffix input_files

/-- External-world outcomes for the track disposition editor: file
existence, lazy mkvpropedit availability, the track list get_tracks
reports for a file (its probing assumed to succeed, which is the setting
of the claims about it), and whether a given mkvpropedit command exits
zero. -/
structure TrackEnv where
  fileExists : String → Bool
  mkvAvailable : Bool
  tracks : String → List Track
  runOk : List String → Bool

/-- The `--edit track:=<id> --set flag-default=0` argument group. -/
def editArgsClear (tid : Nat) : List String :=
  ["--edit", "track:=" ++ toString tid, "--set", "flag-default=0"]

/-- The `--edit track:=<id> --set flag-default=1` argument group. -/
def editArgsSet (tid : Nat) : List String :=
  ["--edit", "track:=" ++ toString tid, "--set", "flag-default=1"]

/-- The single mkvpropedit command set_default_track builds: executable and
file, then a clear-default edit for every track of the target's type, then
the set-default edit for the target track. -/
def buildPropeditCmd (path input : String) (sameType : List Track)
    (target : Nat) : List String :=
  [path, input] ++ (sameType.map (fun t => editArgsClear t.id)).flatten
    ++ editArgsSet target

/-- The target-track resolution of set_default_track: by explicit id (the
id must exist among the probed tracks), else by the first track matching
the given type and language, else ValueError; a failed resolution is the
ChapterExtractionError the source raises. -/
def resolveTargetTrack (env : TrackEnv) (input : String)
    (track_id : Option Nat) (track_type language : Option String) :
    Except ChapterError (Nat × String) :=
  match track_id with
  | some tid =>
    match (env.tracks input).find? (fun t => t.id == tid) with
    | none => .error (.extractionError
        ("Track ID " ++ toString tid ++ " not found in file"))
    | some t => .ok (tid, t.type)
  | none =>
    if isTruthyOpt track_type && isTruthyOpt language then
      match (env.tracks input).filter
          (fun t => t.type == track_type.getD ""
            && t.language == some (language.getD "")) with
      | [] => .error (.extractionError
          ("No " ++ track_type.getD "" ++ " track with language "
            ++ language.getD "" ++ " found"))
      | t :: _ => .ok (t.id, track_type.getD "")
    else
      .error (.valueError
        "Either track_id or both track_type and language must be provided")

/-- ChapterExtractor.set_default_track: after the existence, .mkv-format and
availability checks, resolve the target track, then issue the one
mkvpropedit invocation covering all edits. The returned command is the
single invocation performed (the source has exactly one subprocess call
here); a non-zero exit raises ChapterExtractionError. -/
def set_default_track (env : TrackEnv) (path input : String)
    (track_id : Option Nat) (track_type language : Option String) :
    Except ChapterError (List String) :=
  if !env.fileExists input then
    .error (.extractionError ("Input file not found: " ++ input))
  else if !charsEnd ".mkv".data (strLower input).data then
    .error (.unsupportedFormat "set_default_track only works with MKV files")
  else if !env.mkvAvailable then
    .error (.extractionError
      "mkvpropedit not found. Please install MKVToolNix to use this feature.")
  else
    match resolveTargetTrack env input track_id track_type language with
    | .error e => .error e
    | .ok (tid, ttype) =>
      if env.runOk (buildPropeditCmd path input
          ((env.tracks input).filter (fun t => t.type == ttype)) tid) then
        .ok (buildPropeditCmd path input
          ((env.tracks input).filter (fun t => t.type == ttype)) tid)
      else .error (.extractionError "Failed to set default track")

/-! Concrete sample data and environments used by witnesses and
counterexamples. -/

/-- Placeholder chapter for list getD access. -/
def chDefault : Chapter := { title := "", start_time := 0, end_time := 0 }

/-- Placeholder result for list getD access. -/
def rDefault : ExtractionResult := { source_file := "" }

/-- Placeholder task for list getD access. -/
def taskDefault : Task :=
  { idx := 0, file := "", chIdx := 0, chapter := chDefault, seg := "" }

def chEp1 : Chapter := { title := "Episode 1", start_time := 0, end_time := 10, index := some 0 }

def chEp2 : Chapter := { title := "Episode 2", start_time := 10, end_time := 20, index := some 1 }

def chEp3 : Chapter := { title := "Episode 3", start_time := 0, end_time := 5, index := some 0 }

def rawEp1 : RawChapter := { titleTag := some "Episode 1", start_time := 0, end_time := 10 }

def rawEp2 : RawChapter := { titleTag := some "Episode 2", start_time := 10, end_time := 20 }

def rawEp3 : RawChapter := { titleTag := some "Episode 3", start_time := 0, end_time := 5 }

/-- Regex engine on which every pattern fails to compile. -/
def reBad : RegexEngine where
  compiles := fun _ => false
  smatch := fun _ _ _ => false

/-- Regex engine on which every pattern compiles and search behaves as
case-insensitive substring containment. -/
def reSub : RegexEngine where
  compiles := fun _ => true
  smatch := fun pat _ title => keywordHit false pat title

/-- Environment with one existing two-chapter file "a" whose second
chapter extraction fails. -/
def envPartial : Env where
  fileExists := fun s => s == "a"
  probe := fun s => if s == "a" then .ok [rawEp1, rawEp2] else .error "probe failed"
  extractOk := fun f k _ => f == "a" && k == 0
  extractStderr := fun _ _ _ => "boom"
  mergeOk := fun _ _ => true

/-- Environment with files "a" (two chapters) and "b" (one chapter) on
which every extraction and merge succeeds. -/
def envAllOk : Env where
  fileExists := fun _ => true
  probe := fun s => if s == "a" then .ok [rawEp1, rawEp2] else .ok [rawEp3]
  extractOk := fun _ _ _ => true
  extractStderr := fun _ _ _ => ""
  mergeOk := fun _ _ => true

/-- Environment like envAllOk on which every segment extraction fails. -/
def envAllFail : Env where
  fileExists := fun _ => true
  probe := fun s => if s == "a" then .ok [rawEp1, rawEp2] else .ok [rawEp3]
  extractOk := fun _ _ _ => false
  extractStderr := fun _ _ _ => "boom"
  mergeOk := fun _ _ => true

/-- Environment whose probe reports zero chapters for every file. -/
def envZero : Env where
  fileExists := fun _ => true
  probe := fun _ => .ok []
  extractOk := fun _ _ _ => true
  extractStderr := fun _ _ _ => ""
  mergeOk := fun _ _ => true

def demoFcs : List (String × List Chapter) := [("a", [chEp1, chEp2]), ("b", [chEp3])]

def trkVideo : Track := { id := 0, type := "video", codec := "h264" }

def trkAudioJpn : Track := { id := 1, type := "audio", codec := "aac", language := some "jpn" }

def trkAudioEng : Track := { id := 2, type := "audio", codec := "aac", language := some "eng" }

/-- Track-editing environment with one MKV file carrying a video track and
two audio tracks. -/
def envTracks : TrackEnv where
  fileExists := fun _ => true
  mkvAvailable := true
  tracks := fun _ => [trkVideo, trkAudioJpn, trkAudioEng]
  runOk := fun _ => true

/-! Theorems. -/

theorem keyword_incl_eq (chapters : List Chapter) (keyword : String) (cs : Bool) :
    filter_chapters_by_keyword chapters keyword cs false
      = chapters.filter (fun ch => keywordHit cs keyword ch.title) := rfl

theorem keyword_excl_eq (chapters : List Chapter) (keyword : String) (cs : Bool) :
    filter_chapters_by_keyword chapters keyword cs true
      = chapters.filter (fun ch =>
          decide (ch ∉ chapters.filter (fun c => keywordHit cs keyword c.title))) := rfl

theorem keyword_exclude_eq_filter_not (chapters : List Chapter)
    (keyword : String) (cs : Bool) :
    filter_chapters_by_keyword chapters keyword cs true
      = chapters.filter (fun ch => !(keywordHit cs keyword ch.title)) := by
  rw [keyword_excl_eq]
  apply List.filter_congr
  intro ch hch
  by_cases hhit : keywordHit cs keyword ch.title = true
  · simp [List.mem_filter, hch, hhit]
  · simp [List.mem_filter, hch, hhit]

theorem regex_compiles_eq (re : RegexEngine) (chapters : List Chapter)
    (pat : String) (cs : Bool) (ex : Bool) (hc : re.compiles pat = true) :
    filter_chapters_by_regex re chapters pat cs ex
      = .ok (if ex then chapters.filter (fun ch => !(re.smatch pat cs ch.title))
             else chapters.filter (fun ch => re.smatch pat cs ch.title)) := by
  unfold filter_chapters_by_regex
  rw [if_pos hc]
  cases ex
  · rfl
  · rfl

/-- C6: the exclude=true keyword filter is exactly the original-order
complement of the exclude=false filter within the input, and the keyword
and regex filters are order-preserving subsequences of the input list
(the embedding is pure, so the input list is never mutated). -/
theorem filter_complement_and_subsequence (chapters : List Chapter)
    (keyword : String) (cs : Bool) :
    filter_chapters_by_keyword chapters keyword cs true
      = chapters.filter (fun ch => !(keywordHit cs keyword ch.title)) ∧
    (∀ ch ∈ chapters,
      ch ∈ filter_chapters_by_keyword chapters keyword cs true ↔
        ch ∉ filter_chapters_by_keyword chapters keyword cs false) ∧
    (filter_chapters_by_keyword chapters keyword cs false).Sublist chapters ∧
    (filter_chapters_by_keyword chapters keyword cs true).Sublist chapters ∧
    (∀ (re : RegexEngine) (pat : String) (ex : Bool) (out : List Chapter),
      filter_chapters_by_regex re chapters pat cs ex = .ok out →
        out.Sublist chapters) := by
  refine ⟨keyword_exclude_eq_filter_not chapters keyword cs, ?_, ?_, ?_, ?_⟩
  · intro ch hch
    rw [keyword_exclude_eq_filter_not, keyword_incl_eq]
    simp [List.mem_filter, hch]
  · rw [keyword_incl_eq]
    exact List.filter_sublist chapters
  · rw [keyword_exclude_eq_filter_not]
    exact List.filter_sublist chapters
  · intro re pat ex out h
    by_cases hc : re.compiles pat = true
    · rw [regex_compiles_eq re chapters pat cs ex hc] at h
      cases h
      cases ex
      · exact List.filter_sublist chapters
      · exact List.filter_sublist chapters
    · unfold filter_chapters_by_regex at h
      rw [if_neg hc] at h
      exact Except.noConfusion h

/-- Witness for the filter theorem at the spec scenario chapters. -/
theorem filter_complement_and_subsequence_witness :
    filter_chapters_by_keyword [chEp1, chEp2] "episode 1" false true
      = List.filter (fun ch => !(keywordHit false "episode 1" ch.title)) [chEp1, chEp2]
    ∧ (chEp1 ∈ [chEp1, chEp2]
        ∧ (chEp1 ∈ filter_chapters_by_keyword [chEp1, chEp2] "episode 1" false true ↔
            chEp1 ∉ filter_chapters_by_keyword [chEp1, chEp2] "episode 1" false false))
    ∧ (filter_chapters_by_keyword [chEp1, chEp2] "episode 1" false false).Sublist [chEp1, chEp2]
    ∧ (filter_chapters_by_regex reSub [chEp1, chEp2] "episode" false false
        = .ok (List.filter (fun ch => reSub.smatch "episode" false ch.title) [chEp1, chEp2])
        ∧ (List.filter (fun ch => reSub.smatch "episode" false ch.title) [chEp1, chEp2]).Sublist
            [chEp1, chEp2]) := by
  have h := filter_complement_and_subsequence [chEp1, chEp2] "episode 1" false
  refine ⟨h.1, ⟨by decide, h.2.1 chEp1 (by decide)⟩, h.2.2.1, rfl, ?_⟩
  exact h.2.2.2.2 reSub "episode" false _ rfl

theorem chaptersFromProbeAux_title (raws : List RawChapter) :
    ∀ (n i : Nat), i < raws.length →
      (raws.getD i { titleTag := none, start_time := 0, end_time := 0 }).titleTag = none →
      ((chaptersFromProbeAux n raws).getD i chDefault).title
        = "Chapter " ++ toString (n + i + 1) := by
  induction raws with
  | nil => intro n i h _; simp at h
  | cons rc rest ih =>
    intro n i h ht
    cases i with
    | zero =>
      simp only [chaptersFromProbeAux, List.getD_cons_zero] at ht ⊢
      simp [chapterFromRaw, ht]
    | succ j =>
      simp only [chaptersFromProbeAux, List.getD_cons_succ] at ht ⊢
      have hj : j < rest.length := by simpa using h
      have := ih (n + 1) j hj ht
      rw [this]
      have harith : n + 1 + j + 1 = n + (j + 1) + 1 := by omega
      rw [harith]

/-- C7 (amended): a probed chapter whose tags carry no "title" key is given
the default title "Chapter n" with n its 1-based probe position; an
empty-string title tag, however, is preserved as the empty title (see the
counterexample). -/
theorem probe_title_default (raws : List RawChapter) (i : Nat)
    (h : i < raws.length)
    (ht : (raws.getD i { titleTag := none, start_time := 0, end_time := 0 }).titleTag = none) :
    ((chaptersFromProbe raws).getD i chDefault).title = "Chapter " ++ toString (i + 1) := by
  have := chaptersFromProbeAux_title raws 0 i h ht
  simpa [chaptersFromProbe] using this

/-- Witness: the chapter at probe index 0 with no title tag is titled
"Chapter 1". -/
theorem probe_title_default_witness :
    0 < ([{ titleTag := none, start_time := 0, end_time := 60 }] : List RawChapter).length
    ∧ ((chaptersFromProbe [{ titleTag := none, start_time := 0, end_time := 60 }]).getD 0 chDefault).title
        = "Chapter 1" :=
  ⟨by decide,
   probe_title_default [{ titleTag := none, start_time := 0, end_time := 60 }] 0
     (by decide) rfl⟩

/-- Counterexample to C7 as stated: a chapter whose title tag is present
but empty keeps the empty title instead of receiving "Chapter 1". -/
theorem probe_title_empty_tag_counterexample :
    (chaptersFromProbe [{ titleTag := some "", start_time := 0, end_time := 60 }]).map Chapter.title
      = [""]
    ∧ ("" : String) ≠ "Chapter 1" :=
  ⟨rfl, by decide⟩

theorem entry_cond_false {kw pat : Option String}
    (hentry : (isTruthyOpt kw || isTruthyOpt pat) = true) :
    (!isTruthyOpt kw && !isTruthyOpt pat) = false := by
  cases hk : isTruthyOpt kw <;> cases hp : isTruthyOpt pat <;> simp_all

/-- C4: when the scan phase completes with a combined match count of zero,
extract_and_merge raises ChapterExtractionError and performs no merge
invocation, so no output file is produced and no result list reaches the
caller. -/
theorem extract_and_merge_zero_matches (env : Env) (re : RegexEngine)
    (files : List String) (out : String) (kw pat : Option String)
    (cs ex par : Bool) (comps : List Task)
    (rs : List ExtractionResult) (fcs : List (String × List Chapter))
    (hentry : (isTruthyOpt kw || isTruthyOpt pat) = true)
    (hp1 : phase1 env re kw pat cs ex files = .ok (rs, fcs, 0)) :
    extract_and_merge_traced env re files out kw pat cs ex par comps
      = (.error (.extractionError
          "No chapters matching filter found in any input files"), []) := by
  unfold extract_and_merge_traced
  rw [entry_cond_false hentry, hp1]
  simp

/-- Witness: one existing file with two chapters, keyword matching none. -/
theorem extract_and_merge_zero_matches_witness :
    phase1 envPartial reBad (some "ZZZ") none false false ["a"]
      = .ok ([{ source_file := "a", chapters_found := 2 }], [], 0)
    ∧ extract_and_merge_traced envPartial reBad ["a"] "out.mkv" (some "ZZZ") none
        false false false []
      = (.error (.extractionError
          "No chapters matching filter found in any input files"), []) :=
  ⟨rfl,
   extract_and_merge_zero_matches envPartial reBad ["a"] "out.mkv" (some "ZZZ")
     none false false false [] _ _ rfl rfl⟩

theorem step_err_shape {env : Env} {re : RegexEngine} {kw pat : Option String}
    {cs ex : Bool} {f : String} {e : ChapterError}
    (h : phase1Step env re kw pat cs ex f = .error e) :
    ∃ m, e = ChapterError.extractionError m := by
  unfold phase1Step at h
  split at h
  · split at h
    · injection h with h2
      exact ⟨_, h2.symm⟩
    · split at h
      · injection h with h2
        exact ⟨_, h2.symm⟩
      · split at h
        · injection h with h2
          exact ⟨_, h2.symm⟩
        · exact Except.noConfusion h
        · exact Except.noConfusion h
  · exact Except.noConfusion h

theorem ph1_err_shape {env : Env} {re : RegexEngine} {kw pat : Option String}
    {cs ex : Bool} :
    ∀ {files : List String} {e : ChapterError},
      phase1 env re kw pat cs ex files = .error e →
      ∃ m, e = ChapterError.extractionError m := by
  intro files
  induction files with
  | nil => intro e h; exact Except.noConfusion h
  | cons g rest ih =>
    intro e h
    unfold phase1 at h
    cases hg : phase1Step env re kw pat cs ex g with
    | error e1 =>
      rw [hg] at h
      injection h with h2
      exact h2 ▸ step_err_shape hg
    | ok pr =>
      obtain ⟨r, opt⟩ := pr
      rw [hg] at h
      cases hrest : phase1 env re kw pat cs ex rest with
      | error e2 =>
        rw [hrest] at h
        injection h with h2
        exact h2 ▸ ih hrest
      | ok tr =>
        obtain ⟨rs, fcs, tm⟩ := tr
        rw [hrest] at h
        cases opt
        · exact Except.noConfusion h
        · exact Except.noConfusion h

theorem phase1_err_of_step_err {env : Env} {re : RegexEngine}
    {kw pat : Option String} {cs ex : Bool} {f : String} {e0 : ChapterError} :
    ∀ {files : List String}, f ∈ files →
      phase1Step env re kw pat cs ex f = .error e0 →
      ∃ e, phase1 env re kw pat cs ex files = .error e := by
  intro files
  induction files with
  | nil => intro hf; cases hf
  | cons g rest ih =>
    intro hf hstep
    cases hf with
    | head => exact ⟨e0, by unfold phase1; rw [hstep]⟩
    | tail _ hmem =>
      obtain ⟨e, he⟩ := ih hmem hstep
      cases hg : phase1Step env re kw pat cs ex g with
      | error e1 => exact ⟨e1, by unfold phase1; rw [hg]⟩
      | ok pr =>
        obtain ⟨r, opt⟩ := pr
        refine ⟨e, ?_⟩
        unfold phase1
        rw [hg, he]

/-- The scan step on an existing file probed to zero chapters raises
ChapterExtractionError. -/
theorem step_zero_chapters {env : Env} {re : RegexEngine}
    {kw pat : Option String} {cs ex : Bool} {f : String}
    (hex : env.fileExists f = true) (hprobe : env.probe f = .ok []) :
    phase1Step env re kw pat cs ex f
      = .error (.extractionError ("No chapter information found in " ++ f)) := by
  unfold phase1Step
  rw [hex, hprobe]
  rfl

/-- C5: if any existing input file probes to zero chapters, extract_and_merge
raises ChapterExtractionError regardless of the other files, performing no
merge invocation and returning no result list. -/
theorem extract_and_merge_zero_chapter_file (env : Env) (re : RegexEngine)
    (files : List String) (out : String) (kw pat : Option String)
    (cs ex par : Bool) (comps : List Task) (f : String)
    (hentry : (isTruthyOpt kw || isTruthyOpt pat) = true)
    (hf : f ∈ files) (hex : env.fileExists f = true)
    (hprobe : env.probe f = .ok []) :
    ∃ m, extract_and_merge_traced env re files out kw pat cs ex par comps
      = (.error (.extractionError m), []) := by
  obtain ⟨e, he⟩ := phase1_err_of_step_err hf (step_zero_chapters hex hprobe)
  obtain ⟨m, rfl⟩ := ph1_err_shape he
  refine ⟨m, ?_⟩
  unfold extract_and_merge_traced
  rw [entry_cond_false hentry, he]
  simp

/-- Witness: the zero-chapter file "a" aborts the run even though it is
listed alongside other content. -/
theorem extract_and_merge_zero_chapter_file_witness :
    ("a" ∈ ["a", "b"] ∧ envZero.fileExists "a" = true ∧ envZero.probe "a" = .ok [])
    ∧ ∃ m, extract_and_merge_traced envZero reBad ["a", "b"] "out.mkv" (some "E")
        none false false false [] = (.error (.extractionError m), []) :=
  ⟨⟨by decide, rfl, rfl⟩,
   extract_and_merge_zero_chapter_file envZero reBad ["a", "b"] "out.mkv"
     (some "E") none false false false [] "a" rfl (by decide) rfl rfl⟩

theorem assignOutput_getD (out : String) (rs : List ExtractionResult) :
    ∀ i, ((assignOutput out rs).getD i rDefault).output_file
      = (if (rs.getD i rDefault).success = true
            ∧ (rs.getD i rDefault).chapters_extracted ≠ []
         then some out else (rs.getD i rDefault).output_file) := by
  induction rs with
  | nil =>
    intro i
    simp [assignOutput, rDefault]
  | cons r rest ih =>
    intro i
    cases i with
    | zero =>
      simp only [assignOutput, List.map_cons, List.getD_cons_zero]
      by_cases hs : r.success = true
      · by_cases hche : r.chapters_extracted = []
        · simp [hs, hche]
        · simp [hs, hche]
      · simp [hs]
    | succ j =>
      simpa only [assignOutput, List.map_cons, List.getD_cons_succ] using ih j

/-- C2 (amended): when extract_and_merge completes without raising, the
merged output path is assigned exactly to the results that are still
marked successful and extracted at least one chapter; a result with a
partial extraction failure (success already false) keeps output_file=None
even though its extracted chapters were included in the merge (see the
counterexample). -/
theorem merge_output_assignment (env : Env) (re : RegexEngine)
    (files : List String) (out : String) (kw pat : Option String)
    (cs ex par : Bool) (comps : List Task)
    (rs : List ExtractionResult) (fcs : List (String × List Chapter)) (tm : Nat)
    (hentry : (isTruthyOpt kw || isTruthyOpt pat) = true)
    (hp1 : phase1 env re kw pat cs ex files = .ok (rs, fcs, tm))
    (htm : ¬tm = 0)
    (hsegs : (phase2Segments env fcs rs comps par).1.isEmpty = false)
    (hmerge : env.mergeOk (phase2Segments env fcs rs comps par).1 out = true) :
    (extract_and_merge_traced env re files out kw pat cs ex par comps).1
      = .ok (assignOutput out (phase2Segments env fcs rs comps par).2)
    ∧ ∀ i, ((assignOutput out (phase2Segments env fcs rs comps par).2).getD i rDefault).output_file
        = (if ((phase2Segments env fcs rs comps par).2.getD i rDefault).success = true
              ∧ ((phase2Segments env fcs rs comps par).2.getD i rDefault).chapters_extracted ≠ []
           then some out
           else ((phase2Segments env fcs rs comps par).2.getD i rDefault).output_file) := by
  constructor
  · unfold extract_and_merge_traced
    rw [entry_cond_false hentry, hp1]
    simp only [Bool.false_eq_true, if_false]
    rw [if_neg htm, hsegs]
    simp only [Bool.false_eq_true, if_false]
    unfold mergeSegmentsModel
    rw [hsegs, hmerge]
    simp
  · exact assignOutput_getD out _

/-- Witness for the amended assignment rule on a run where file "a" has a
partial failure: its first chapter is merged yet output_file stays none. -/
theorem merge_output_assignment_witness :
    ((extract_and_merge_traced envPartial reBad ["a"] "out.mkv" (some "Episode")
        none false false false []).1
      = .ok (assignOutput "out.mkv"
          (phase2Segments envPartial
            [("a", [chEp1, chEp2])]
            [{ source_file := "a", chapters_found := 2, chapters_matched := 2 }]
            [] false).2))
    ∧ (phase2Segments envPartial [("a", [chEp1, chEp2])]
        [{ source_file := "a", chapters_found := 2, chapters_matched := 2 }] [] false).2
      = [{ source_file := "a", chapters_found := 2, chapters_matched := 2,
           chapters_extracted := [chEp1], success := false,
           error_message := some "Failed to extract chapter Episode 2: boom" }] :=
  ⟨(merge_output_assignment envPartial reBad ["a"] "out.mkv" (some "Episode")
      none false false false []
      [{ source_file := "a", chapters_found := 2, chapters_matched := 2 }]
      [("a", [chEp1, chEp2])] 2 rfl rfl (by decide) rfl rfl).1,
   rfl⟩

/-- Counterexample to C2 as stated: file "a" contributed chapter chEp1 to
the merge (its segment heads the sole concat invocation) yet, because its
second chapter failed, success is false and output_file remains none
rather than the merged path. -/
theorem merge_output_partial_failure_counterexample :
    extract_and_merge_traced envPartial reBad ["a"] "out.mkv" (some "Episode")
        none false false false []
      = (.ok [{ source_file := "a", chapters_found := 2, chapters_matched := 2,
                chapters_extracted := [chEp1], success := false,
                error_message := some "Failed to extract chapter Episode 2: boom" }],
         [([segName "a" 0], "out.mkv")]) := rfl

theorem dispatch_badpat (re : RegexEngine) (chs : List Chapter)
    (kw pat : Option String) (cs ex : Bool)
    (hpt : isTruthyOpt pat = true) (hc : re.compiles (pat.getD "") = false) :
    filterChaptersDispatch re chs kw pat cs ex
      = .error (.regexError ("invalid pattern " ++ pat.getD "")) := by
  unfold filterChaptersDispatch
  rw [if_pos hpt]
  unfold filter_chapters_by_regex
  rw [hc]
  simp

theorem step_badpat (env : Env) (re : RegexEngine) (kw pat : Option String)
    (cs ex : Bool) (f : String)
    (hpt : isTruthyOpt pat = true) (hc : re.compiles (pat.getD "") = false) :
    (∃ e, phase1Step env re kw pat cs ex f = .error e)
    ∨ (∃ r, phase1Step env re kw pat cs ex f = .ok (r, none)) := by
  unfold phase1Step
  split
  · split
    · exact .inl ⟨_, rfl⟩
    · split
      · exact .inl ⟨_, rfl⟩
      · split
        · exact .inl ⟨_, rfl⟩
        · exact .inr ⟨_, rfl⟩
        · rename_i matching heq
          rw [dispatch_badpat re _ kw pat cs ex hpt hc] at heq
          exact Except.noConfusion heq
  · exact .inr ⟨_, rfl⟩

theorem ph1_badpat {env : Env} {re : RegexEngine} {kw pat : Option String}
    {cs ex : Bool} (hpt : isTruthyOpt pat = true)
    (hc : re.compiles (pat.getD "") = false) :
    ∀ {files : List String} {rs : List ExtractionResult}
      {fcs : List (String × List Chapter)} {tm : Nat},
      phase1 env re kw pat cs ex files = .ok (rs, fcs, tm) →
      fcs = [] ∧ tm = 0 := by
  intro files
  induction files with
  | nil =>
    intro rs fcs tm h
    have h2 : (([], [], 0) : List ExtractionResult × List (String × List Chapter) × Nat)
        = (rs, fcs, tm) := Except.ok.inj h
    have hfcs := congrArg (fun q => q.2.1) h2
    have htm := congrArg (fun q => q.2.2) h2
    exact ⟨hfcs.symm, htm.symm⟩
  | cons g rest ih =>
    intro rs fcs tm h
    unfold phase1 at h
    rcases step_badpat env re kw pat cs ex g hpt hc with ⟨e, hstep⟩ | ⟨r, hstep⟩
    · rw [hstep] at h
      exact Except.noConfusion h
    · rw [hstep] at h
      cases hrest : phase1 env re kw pat cs ex rest with
      | error e2 =>
        rw [hrest] at h
        exact Except.noConfusion h
      | ok tr =>
        obtain ⟨rs2, fcs2, tm2⟩ := tr
        rw [hrest] at h
        have h2 := Except.ok.inj h
        obtain ⟨hfcs2, htm2⟩ := ih hrest
        have hfcs : fcs2 = fcs := congrArg (fun q => q.2.1) h2
        have htm : tm2 = tm := congrArg (fun q => q.2.2) h2
        exact ⟨hfcs ▸ hfcs2, htm ▸ htm2⟩

/-- C8 (amended): filter_chapters_by_regex itself fails with the
invalid-pattern error (re.error) when the pattern does not compile; a
pipeline invocation, however, catches that error per file (it is not a
ChapterExtractionError), records it on the file's result, and
extract_and_merge then raises ExtractionError for the resulting global
zero-match condition — it never surfaces the InvalidPattern error, and
extract_to_separate_files even returns a result list (see the
counterexample). -/
theorem regex_error_routing (re : RegexEngine) (p : String)
    (hc : re.compiles p = false) (hne : p.isEmpty = false) :
    (∀ (chapters : List Chapter) (cs ex : Bool),
      filter_chapters_by_regex re chapters p cs ex
        = .error (.regexError ("invalid pattern " ++ p))) ∧
    (∀ (env : Env) (files : List String) (out : String) (kw : Option String)
        (cs ex par : Bool) (comps : List Task),
      ∃ m, extract_and_merge_traced env re files out kw (some p) cs ex par comps
          = (.error (.extractionError m), [])) := by
  have hpt : isTruthyOpt (some p) = true := by simp [isTruthyOpt, hne]
  constructor
  · intro chapters cs ex
    unfold filter_chapters_by_regex
    rw [hc]
    simp
  · intro env files out kw cs ex par comps
    have hentry : (isTruthyOpt kw || isTruthyOpt (some p)) = true := by
      rw [hpt]
      simp
    cases hp1 : phase1 env re kw (some p) cs ex files with
    | error e =>
      obtain ⟨m, rfl⟩ := ph1_err_shape hp1
      refine ⟨m, ?_⟩
      unfold extract_and_merge_traced
      rw [entry_cond_false hentry, hp1]
      simp
    | ok tr =>
      obtain ⟨rs, fcs, tm⟩ := tr
      obtain ⟨hfcs, htm⟩ := ph1_badpat hpt hc hp1
      refine ⟨"No chapters matching filter found in any input files", ?_⟩
      unfold extract_and_merge_traced
      rw [entry_cond_false hentry, hp1]
      rw [htm]
      simp

/-- Witness applying both halves of the routing theorem to the
non-compiling pattern "[bad". -/
theorem regex_error_routing_witness :
    (reBad.compiles "[bad" = false ∧ "[bad".isEmpty = false)
    ∧ filter_chapters_by_regex reBad [chEp1] "[bad" false false
        = .error (.regexError "invalid pattern [bad")
    ∧ ∃ m, extract_and_merge_traced envPartial reBad ["a"] "out.mkv" none
        (some "[bad") false false false [] = (.error (.extractionError m), []) :=
  ⟨⟨rfl, rfl⟩,
   (regex_error_routing reBad "[bad" rfl rfl).1 [chEp1] false false,
   (regex_error_routing reBad "[bad" rfl rfl).2 envPartial ["a"] "out.mkv" none
     false false false []⟩

/-- Counterexample to C8 as stated: routing a non-compiling pattern through
the extract_to_separate_files pipeline does not fail with the
invalid-pattern error — it returns a complete result list with the failure
recorded per file. -/
theorem regex_invalid_pattern_counterexample :
    extract_to_separate_files envPartial reBad ["a"] none (some "[bad") none
        false false "_filtered"
      = .ok [{ source_file := "a", chapters_found := 2, success := false,
               error_message := some "invalid pattern [bad" }] := rfl

theorem resolve_id_none (env : TrackEnv) (input : String) (tid : Nat)
    (hfind : (env.tracks input).find? (fun t => t.id == tid) = none) :
    resolveTargetTrack env input (some tid) none none
      = .error (.extractionError
          ("Track ID " ++ toString tid ++ " not found in file")) := by
  simp only [resolveTargetTrack]
  rw [hfind]

theorem resolve_id_some (env : TrackEnv) (input : String) (tid : Nat) (tgt : Track)
    (hfind : (env.tracks input).find? (fun t => t.id == tid) = some tgt) :
    resolveTargetTrack env input (some tid) none none = .ok (tid, tgt.type) := by
  simp only [resolveTargetTrack]
  rw [hfind]

theorem resolve_lang_none (env : TrackEnv) (input : String) (tt lang : String)
    (htt : isTruthyOpt (some tt) = true) (hlang : isTruthyOpt (some lang) = true)
    (hfilter : (env.tracks input).filter
        (fun t => t.type == tt && t.language == some lang) = []) :
    resolveTargetTrack env input none (some tt) (some lang)
      = .error (.extractionError
          ("No " ++ tt ++ " track with language " ++ lang ++ " found")) := by
  simp only [resolveTargetTrack, Option.getD_some]
  rw [if_pos (by rw [htt, hlang]; rfl), hfilter]

theorem resolve_lang_some (env : TrackEnv) (input : String) (tt lang : String)
    (t0 : Track) (rest0 : List Track)
    (htt : isTruthyOpt (some tt) = true) (hlang : isTruthyOpt (some lang) = true)
    (hfilter : (env.tracks input).filter
        (fun t => t.type == tt && t.language == some lang) = t0 :: rest0) :
    resolveTargetTrack env input none (some tt) (some lang) = .ok (t0.id, tt) := by
  simp only [resolveTargetTrack, Option.getD_some]
  rw [if_pos (by rw [htt, hlang]; rfl), hfilter]

theorem set_default_track_err (env : TrackEnv) (path input : String)
    (track_id : Option Nat) (track_type language : Option String)
    (e : ChapterError)
    (hex : env.fileExists input = true)
    (hmkv : charsEnd ".mkv".data (strLower input).data = true)
    (hav : env.mkvAvailable = true)
    (hres : resolveTargetTrack env input track_id track_type language = .error e) :
    set_default_track env path input track_id track_type language = .error e := by
  unfold set_default_track
  simp only [hex, hmkv, hav, Bool.not_true, Bool.false_eq_true, if_false]
  rw [hres]

theorem set_default_track_ok (env : TrackEnv) (path input : String)
    (track_id : Option Nat) (track_type language : Option String)
    (tid : Nat) (ttype : String)
    (hex : env.fileExists input = true)
    (hmkv : charsEnd ".mkv".data (strLower input).data = true)
    (hav : env.mkvAvailable = true)
    (hres : resolveTargetTrack env input track_id track_type language = .ok (tid, ttype))
    (hrun : env.runOk (buildPropeditCmd path input
        ((env.tracks input).filter (fun t => t.type == ttype)) tid) = true) :
    set_default_track env path input track_id track_type language
      = .ok ([path, input]
          ++ (((env.tracks input).filter (fun t => t.type == ttype)).map
                (fun t => editArgsClear t.id)).flatten
          ++ editArgsSet tid) := by
  unfold set_default_track
  simp only [hex, hmkv, hav, Bool.not_true, Bool.false_eq_true, if_false]
  rw [hres]
  simp only [buildPropeditCmd, List.cons_append, List.nil_append] at hrun
  simp [hrun, buildPropeditCmd]

/-- C9: on a resolvable target, set_default_track issues one mkvpropedit
invocation whose argument list clears the default flag on every track of
the target's type and then sets it on the target track; when no track
matches the given id, or none matches the given type and language, it
fails with ChapterExtractionError. -/
theorem set_default_track_spec (env : TrackEnv) (path input : String)
    (hex : env.fileExists input = true)
    (hmkv : charsEnd ".mkv".data (strLower input).data = true)
    (hav : env.mkvAvailable = true) :
    (∀ tid : Nat, (env.tracks input).find? (fun t => t.id == tid) = none →
      set_default_track env path input (some tid) none none
        = .error (.extractionError
            ("Track ID " ++ toString tid ++ " not found in file"))) ∧
    (∀ tt lang : String, isTruthyOpt (some tt) = true →
      isTruthyOpt (some lang) = true →
      (env.tracks input).filter
          (fun t => t.type == tt && t.language == some lang) = [] →
      set_default_track env path input none (some tt) (some lang)
        = .error (.extractionError
            ("No " ++ tt ++ " track with language " ++ lang ++ " found"))) ∧
    (∀ (tid : Nat) (tgt : Track),
      (env.tracks input).find? (fun t => t.id == tid) = some tgt →
      env.runOk (buildPropeditCmd path input
          ((env.tracks input).filter (fun t => t.type == tgt.type)) tid) = true →
      set_default_track env path input (some tid) none none
        = .ok ([path, input]
            ++ (((env.tracks input).filter (fun t => t.type == tgt.type)).map
                  (fun t => editArgsClear t.id)).flatten
            ++ editArgsSet tid)) ∧
    (∀ (tt lang : String) (t0 : Track) (rest0 : List Track),
      isTruthyOpt (some tt) = true → isTruthyOpt (some lang) = true →
      (env.tracks input).filter
          (fun t => t.type == tt && t.language == some lang) = t0 :: rest0 →
      env.runOk (buildPropeditCmd path input
          ((env.tracks input).filter (fun t => t.type == tt)) t0.id) = true →
      set_default_track env path input none (some tt) (some lang)
        = .ok ([path, input]
            ++ (((env.tracks input).filter (fun t => t.type == tt)).map
                  (fun t => editArgsClear t.id)).flatten
            ++ editArgsSet t0.id)) := by
  refine ⟨?_, ?_, ?_, ?_⟩
  · intro tid hfind
    exact set_default_track_err env path input (some tid) none none _ hex hmkv hav
      (resolve_id_none env input tid hfind)
  · intro tt lang htt hlang hfilter
    exact set_default_track_err env path input none (some tt) (some lang) _ hex hmkv hav
      (resolve_lang_none env input tt lang htt hlang hfilter)
  · intro tid tgt hfind hrun
    exact set_default_track_ok env path input (some tid) none none tid tgt.type
      hex hmkv hav (resolve_id_some env input tid tgt hfind) hrun
  · intro tt lang t0 rest0 htt hlang hfilter hrun
    exact set_default_track_ok env path input none (some tt) (some lang) t0.id tt
      hex hmkv hav (resolve_lang_some env input tt lang t0 rest0 htt hlang hfilter) hrun

/-- Witness: on the three-track MKV file, setting the default audio track
by language jpn clears the flag on both audio tracks and sets it on track
1 in a single command; an unmatched language and an unknown id both fail
with ChapterExtractionError. -/
theorem set_default_track_spec_witness :
    set_default_track envTracks "mkvpropedit" "v.mkv" none (some "audio") (some "jpn")
      = .ok (["mkvpropedit", "v.mkv"]
          ++ (((envTracks.tracks "v.mkv").filter
                (fun t => t.type == "audio")).map (fun t => editArgsClear t.id)).flatten
          ++ editArgsSet trkAudioJpn.id)
    ∧ set_default_track envTracks "mkvpropedit" "v.mkv" none (some "audio") (some "ger")
      = .error (.extractionError "No audio track with language ger found")
    ∧ set_default_track envTracks "mkvpropedit" "v.mkv" (some 5) none none
      = .error (.extractionError "Track ID 5 not found in file") := by
  have h := set_default_track_spec envTracks "mkvpropedit" "v.mkv" rfl rfl rfl
  exact ⟨h.2.2.2 "audio" "jpn" trkAudioJpn [] rfl rfl rfl rfl,
         h.2.1 "audio" "ger" rfl rfl rfl,
         h.1 5 rfl⟩

/-! Helper lemmas for the parallel/sequential ordering equivalence. -/

theorem tasksForFile_length (f : String) :
    ∀ (chs : List Chapter) (g ci : Nat), (tasksForFile g f ci chs).length = chs.length := by
  intro chs
  induction chs with
  | nil => intro g ci; rfl
  | cons ch rest ih =>
    intro g ci
    simp [tasksForFile, ih]

theorem tasksForFile_map_idx (f : String) :
    ∀ (chs : List Chapter) (g ci : Nat),
      (tasksForFile g f ci chs).map Task.idx = List.range' g chs.length := by
  intro chs
  induction chs with
  | nil => intro g ci; rfl
  | cons ch rest ih =>
    intro g ci
    simp only [tasksForFile, List.map_cons, ih, List.length_cons]
    rw [List.range'_succ]

theorem buildTasksAux_map_idx :
    ∀ (fcs : List (String × List Chapter)) (g : Nat),
      (buildTasksAux g fcs).map Task.idx
        = List.range' g (buildTasksAux g fcs).length := by
  intro fcs
  induction fcs with
  | nil => intro g; rfl
  | cons p rest ih =>
    intro g
    obtain ⟨f, chs⟩ := p
    simp only [buildTasksAux, List.map_append, List.length_append,
      tasksForFile_map_idx, tasksForFile_length, ih]
    have h1 : g + chs.length = g + 1 * chs.length := by ring
    rw [h1, List.range'_append]
    have h2 : (buildTasksAux (g + chs.length) rest).length + chs.length
        = chs.length + (buildTasksAux (g + chs.length) rest).length := Nat.add_comm _ _
    rw [← h1, h2]

theorem buildTasks_map_idx (fcs : List (String × List Chapter)) :
    (buildTasks fcs).map Task.idx = List.range (buildTasks fcs).length := by
  rw [List.range_eq_range']
  exact buildTasksAux_map_idx fcs 0

theorem extractFileSeq_all_ok (env : Env) (f : String) :
    ∀ (chs : List Chapter) (ci g : Nat),
      (∀ t ∈ tasksForFile g f ci chs,
        env.extractOk t.file t.chIdx t.chapter = true) →
      extractFileSeq env f ci chs
        = ((tasksForFile g f ci chs).map Task.seg, chs, none) := by
  intro chs
  induction chs with
  | nil => intro ci g _; rfl
  | cons ch rest ih =>
    intro ci g hok
    have hhead : env.extractOk f ci ch = true := by
      have := hok { idx := g, file := f, chIdx := ci, chapter := ch, seg := segName f ci }
        (by simp [tasksForFile])
      simpa using this
    have htail := ih (ci + 1) (g + 1) (fun t ht => hok t (by simp [tasksForFile, ht]))
    unfold extractFileSeq
    rw [hhead]
    simp only [if_true, htail, tasksForFile, List.map_cons]

theorem extractSegmentsSequential_all_ok (env : Env) :
    ∀ (fcs : List (String × List Chapter)) (results : List ExtractionResult) (g : Nat),
      (∀ t ∈ buildTasksAux g fcs,
        env.extractOk t.file t.chIdx t.chapter = true) →
      (extractSegmentsSequential env fcs results).1
        = (buildTasksAux g fcs).map Task.seg := by
  intro fcs
  induction fcs with
  | nil => intro results g _; rfl
  | cons p rest ih =>
    intro results g hok
    obtain ⟨f, chs⟩ := p
    have hfile := extractFileSeq_all_ok env f chs 0 g
      (fun t ht => hok t (by simp [buildTasksAux, ht]))
    unfold extractSegmentsSequential
    rw [hfile]
    simp only [buildTasksAux, List.map_append]
    rw [ih _ (g + chs.length) (fun t ht => hok t (by simp [buildTasksAux, ht]))]

theorem processCompletions_all_ok (env : Env) :
    ∀ (comps : List Task) (segres : List (Nat × String))
      (errs : List (String × String)) (results : List ExtractionResult),
      (∀ t ∈ comps, env.extractOk t.file t.chIdx t.chapter = true) →
      (processCompletions env comps segres errs results).1
          = comps.foldl (fun s t => dictInsert t.idx t.seg s) segres
        ∧ (processCompletions env comps segres errs results).2.1 = errs := by
  intro comps
  induction comps with
  | nil => intro segres errs results _; exact ⟨rfl, rfl⟩
  | cons t rest ih =>
    intro segres errs results hok
    have hh : env.extractOk t.file t.chIdx t.chapter = true := hok t (by simp)
    have htail := ih (dictInsert t.idx t.seg segres) errs
      (updateResult t.file
        (fun r => { r with chapters_extracted := r.chapters_extracted ++ [t.chapter] })
        results)
      (fun u hu => hok u (by simp [hu]))
    unfold processCompletions
    rw [hh]
    simpa using htail

theorem dictInsert_fresh {α β : Type} [DecidableEq α] (k : α) (v : β) :
    ∀ (s : List (α × β)), k ∉ s.map Prod.fst →
      dictInsert k v s = s ++ [(k, v)] := by
  intro s
  induction s with
  | nil => intro _; rfl
  | cons p rest ih =>
    intro hk
    obtain ⟨k0, v0⟩ := p
    have hne : ¬k0 = k := by
      intro he
      exact hk (by simp [he])
    unfold dictInsert
    rw [if_neg hne, ih (fun hmem => hk (by simp [hmem]))]
    rfl

theorem insertAll_eq_append :
    ∀ (comps : List Task) (s : List (Nat × String)),
      (comps.map Task.idx).Nodup →
      (∀ t ∈ comps, t.idx ∉ s.map Prod.fst) →
      comps.foldl (fun s t => dictInsert t.idx t.seg s) s
        = s ++ comps.map (fun t => (t.idx, t.seg)) := by
  intro comps
  induction comps with
  | nil => intro s _ _; simp
  | cons t rest ih =>
    intro s hnd hfresh
    have hfirst : dictInsert t.idx t.seg s = s ++ [(t.idx, t.seg)] :=
      dictInsert_fresh t.idx t.seg s (hfresh t (by simp))
    have hnd2 : (rest.map Task.idx).Nodup := by
      simp only [List.map_cons, List.nodup_cons] at hnd
      exact hnd.2
    have hne : ∀ u ∈ rest, u.idx ≠ t.idx := by
      intro u hu he
      simp only [List.map_cons, List.nodup_cons] at hnd
      exact hnd.1 (he ▸ List.mem_map_of_mem Task.idx hu)
    have hfresh2 : ∀ u ∈ rest, u.idx ∉ (s ++ [(t.idx, t.seg)]).map Prod.fst := by
      intro u hu hmem
      simp only [List.map_append, List.mem_append] at hmem
      rcases hmem with hmem | hmem
      · exact hfresh u (by simp [hu]) hmem
      · simp at hmem
        exact hne u hu hmem
    simp only [List.foldl_cons, hfirst]
    rw [ih _ hnd2 hfresh2]
    simp

theorem lookup_pairs :
    ∀ (l : List Task), (l.map Task.idx).Nodup →
      ∀ t ∈ l, (l.map (fun u => (u.idx, u.seg))).lookup t.idx = some t.seg := by
  intro l
  induction l with
  | nil => intro _ t ht; cases ht
  | cons u rest ih =>
    intro hnd t ht
    simp only [List.map_cons, List.nodup_cons] at hnd
    cases ht with
    | head =>
      simp [List.lookup]
    | tail _ hmem =>
      have hfalse : (t.idx == u.idx) = false := by
        cases hb : (t.idx == u.idx)
        · rfl
        · have he : t.idx = u.idx := by simpa using hb
          exact absurd (he ▸ List.mem_map_of_mem Task.idx hmem) hnd.1
      simp only [List.map_cons, List.lookup, hfalse]
      exact ih hnd.2 t hmem

theorem filterMap_eq_map_of_forall {α β : Type} (f : α → Option β) (g : α → β) :
    ∀ (l : List α), (∀ a ∈ l, f a = some (g a)) →
      l.filterMap f = l.map g := by
  intro l
  induction l with
  | nil => intro _; rfl
  | cons a rest ih =>
    intro h
    rw [List.filterMap_cons, h a (by simp), ih (fun b hb => h b (by simp [hb]))]
    rfl

theorem map_getD_range {α : Type} (d : α) :
    ∀ (l : List α), (List.range l.length).map (fun i => l.getD i d) = l := by
  intro l
  induction l with
  | nil => rfl
  | cons a rest ih =>
    rw [List.length_cons, List.range_succ_eq_map, List.map_cons,
      List.map_map]
    congr 1

theorem comps_idx_nodup {fcs : List (String × List Chapter)} {comps : List Task}
    (hperm : comps.Perm (buildTasks fcs)) : (comps.map Task.idx).Nodup := by
  have hp : (comps.map Task.idx).Perm ((buildTasks fcs).map Task.idx) :=
    hperm.map Task.idx
  rw [buildTasks_map_idx] at hp
  exact (hp.nodup_iff).mpr (List.nodup_range _)

theorem extractSegmentsParallel_all_ok (env : Env)
    (fcs : List (String × List Chapter)) (results : List ExtractionResult)
    (comps : List Task) (hperm : comps.Perm (buildTasks fcs))
    (hok : ∀ t ∈ buildTasks fcs, env.extractOk t.file t.chIdx t.chapter = true) :
    (extractSegmentsParallel env fcs results comps).1
      = (buildTasks fcs).map Task.seg := by
  have hokc : ∀ t ∈ comps, env.extractOk t.file t.chIdx t.chapter = true :=
    fun t ht => hok t (hperm.mem_iff.mp ht)
  have hnd : (comps.map Task.idx).Nodup := comps_idx_nodup hperm
  have hproc := processCompletions_all_ok env comps [] [] results hokc
  have hins : comps.foldl (fun s t => dictInsert t.idx t.seg s) []
      = comps.map (fun t => (t.idx, t.seg)) := by
    rw [insertAll_eq_append comps [] hnd (by intro t _ h; cases h)]
    rfl
  have hsegres : (processCompletions env comps [] [] results).1
      = comps.map (fun t => (t.idx, t.seg)) := by rw [hproc.1, hins]
  have hkeys : ((processCompletions env comps [] [] results).1.map Prod.fst)
      = comps.map Task.idx := by
    rw [hsegres, List.map_map]
    rfl
  have hkeysperm : (comps.map Task.idx).Perm (List.range (buildTasks fcs).length) := by
    rw [← buildTasks_map_idx]
    exact hperm.map Task.idx
  have hanti : IsAntisymm Nat (fun a b => a ≤ b) :=
    ⟨fun a b h1 h2 => Nat.le_antisymm h1 h2⟩
  have hsort : List.insertionSort (fun a b => a ≤ b) (comps.map Task.idx)
      = List.range (buildTasks fcs).length := by
    refine @List.eq_of_perm_of_sorted Nat (fun a b => a ≤ b) hanti _ _
      ((List.perm_insertionSort (fun a b => a ≤ b) (comps.map Task.idx)).trans hkeysperm)
      (List.sorted_insertionSort (fun a b => a ≤ b) (comps.map Task.idx)) ?_
    exact List.sorted_le_range _
  have hlookup : ∀ i ∈ List.range (buildTasks fcs).length,
      ((processCompletions env comps [] [] results).1.lookup i)
        = some (((buildTasks fcs).getD i taskDefault).seg) := by
    intro i hi
    have hilt : i < (buildTasks fcs).length := List.mem_range.mp hi
    have hl1 : i < ((buildTasks fcs).map Task.idx).length := by simpa using hilt
    have hl2 : i < (List.range (buildTasks fcs).length).length := by simpa using hilt
    have h1 : ((buildTasks fcs).map Task.idx).getD i 0
        = (List.range (buildTasks fcs).length).getD i 0 := by
      rw [buildTasks_map_idx]
    rw [List.getD_eq_getElem _ _ hl1, List.getD_eq_getElem _ _ hl2,
      List.getElem_map, List.getElem_range] at h1
    have hidx : ((buildTasks fcs).getD i taskDefault).idx = i := by
      rw [List.getD_eq_getElem _ _ hilt]
      exact h1
    have hmem : (buildTasks fcs).getD i taskDefault ∈ buildTasks fcs := by
      rw [List.getD_eq_getElem _ _ hilt]
      exact List.getElem_mem hilt
    have hmemc : (buildTasks fcs).getD i taskDefault ∈ comps :=
      hperm.mem_iff.mpr hmem
    have hlk := lookup_pairs comps hnd _ hmemc
    rw [hidx] at hlk
    rw [hsegres]
    exact hlk
  unfold extractSegmentsParallel
  rw [hkeys, hsort]
  rw [filterMap_eq_map_of_forall _ (fun i => ((buildTasks fcs).getD i taskDefault).seg)
    (List.range (buildTasks fcs).length) hlookup]
  have := map_getD_range taskDefault (buildTasks fcs)
  calc (List.range (buildTasks fcs).length).map
        (fun i => ((buildTasks fcs).getD i taskDefault).seg)
      = ((List.range (buildTasks fcs).length).map
          (fun i => (buildTasks fcs).getD i taskDefault)).map Task.seg := by
        rw [List.map_map]; rfl
    _ = (buildTasks fcs).map Task.seg := by rw [this]

/-- C3: over an input set on which every segment extraction succeeds,
parallel extraction — whatever the completion order of its tasks — hands
the merge stage exactly the segment list of the sequential mode, namely
the segments in input-file order with chapters in filtered order, because
completions are re-sorted by their submission-time global sequence
number. -/
theorem parallel_sequential_same_order (env : Env)
    (fcs : List (String × List Chapter)) (results : List ExtractionResult)
    (comps : List Task)
    (hperm : comps.Perm (buildTasks fcs))
    (hok : ∀ t ∈ buildTasks fcs, env.extractOk t.file t.chIdx t.chapter = true) :
    (extractSegmentsParallel env fcs results comps).1
      = (extractSegmentsSequential env fcs results).1
    ∧ (extractSegmentsSequential env fcs results).1
      = (buildTasks fcs).map Task.seg := by
  have hseq := extractSegmentsSequential_all_ok env fcs results 0 hok
  have hpar := extractSegmentsParallel_all_ok env fcs results comps hperm hok
  exact ⟨by rw [hseq, hpar]; rfl, hseq⟩

/-- Witness: two files, three tasks, completions arriving in reverse order
still merge in canonical order. -/
theorem parallel_sequential_same_order_witness :
    ((buildTasks demoFcs).reverse.Perm (buildTasks demoFcs)
      ∧ ∀ t ∈ buildTasks demoFcs,
          envAllOk.extractOk t.file t.chIdx t.chapter = true)
    ∧ (extractSegmentsParallel envAllOk demoFcs [] (buildTasks demoFcs).reverse).1
        = (extractSegmentsSequential envAllOk demoFcs []).1
    ∧ (extractSegmentsSequential envAllOk demoFcs []).1
        = (buildTasks demoFcs).map Task.seg :=
  ⟨⟨List.reverse_perm _, by decide⟩,
   (parallel_sequential_same_order envAllOk demoFcs [] (buildTasks demoFcs).reverse
      (List.reverse_perm _) (by decide)).1,
   (parallel_sequential_same_order envAllOk demoFcs [] (buildTasks demoFcs).reverse
      (List.reverse_perm _) (by decide)).2⟩

/-! Helper lemmas about result updates, used for the failure-recovery
claims. -/

theorem updateResult_length (f : String) (g : ExtractionResult → ExtractionResult) :
    ∀ rs : List ExtractionResult, (updateResult f g rs).length = rs.length := by
  intro rs
  induction rs with
  | nil => rfl
  | cons r rest ih =>
    unfold updateResult
    by_cases h : r.source_file = f
    · rw [if_pos h]
      rfl
    · rw [if_neg h]
      simpa using ih

theorem updateResult_find_self (f : String)
    (g : ExtractionResult → ExtractionResult)
    (hg : ∀ r, (g r).source_file = r.source_file) :
    ∀ (rs : List ExtractionResult) (r : ExtractionResult),
      rs.find? (fun x => x.source_file == f) = some r →
      (updateResult f g rs).find? (fun x => x.source_file == f) = some (g r) := by
  intro rs
  induction rs with
  | nil => intro r h; exact Option.noConfusion h
  | cons r0 rest ih =>
    intro r h
    by_cases h0 : r0.source_file = f
    · rw [List.find?_cons_of_pos _ (by simpa using h0)] at h
      cases h
      unfold updateResult
      rw [if_pos h0]
      exact List.find?_cons_of_pos _ (by simpa using (hg r0).trans h0)
    · rw [List.find?_cons_of_neg _ (by simpa using h0)] at h
      unfold updateResult
      rw [if_neg h0]
      rw [List.find?_cons_of_neg _ (by simpa using h0)]
      exact ih r h

theorem updateResult_find_other (f f' : String)
    (g : ExtractionResult → ExtractionResult)
    (hg : ∀ r, (g r).source_file = r.source_file) (hne : f ≠ f') :
    ∀ rs : List ExtractionResult,
      (updateResult f g rs).find? (fun x => x.source_file == f')
        = rs.find? (fun x => x.source_file == f') := by
  intro rs
  induction rs with
  | nil => rfl
  | cons r0 rest ih =>
    unfold updateResult
    by_cases h0 : r0.source_file = f
    · rw [if_pos h0]
      have hnot : ¬(g r0).source_file = f' := by
        rw [hg r0, h0]
        exact hne
      have hnot0 : ¬r0.source_file = f' := by
        rw [h0]
        exact hne
      rw [List.find?_cons_of_neg _ (by simpa using hnot),
        List.find?_cons_of_neg _ (by simpa using hnot0)]
    · rw [if_neg h0]
      by_cases h1 : r0.source_file = f'
      · rw [List.find?_cons_of_pos _ (by simpa using h1),
          List.find?_cons_of_pos _ (by simpa using h1)]
      · rw [List.find?_cons_of_neg _ (by simpa using h1),
          List.find?_cons_of_neg _ (by simpa using h1)]
        exact ih

theorem updateResult_forall (f : String) (g : ExtractionResult → ExtractionResult)
    (P : ExtractionResult → Prop) (hg : ∀ r, P r → P (g r)) :
    ∀ rs : List ExtractionResult, (∀ r ∈ rs, P r) →
      ∀ r ∈ updateResult f g rs, P r := by
  intro rs
  induction rs with
  | nil => intro _ r hr; cases hr
  | cons r0 rest ih =>
    intro hall r hr
    unfold updateResult at hr
    by_cases h0 : r0.source_file = f
    · rw [if_pos h0] at hr
      cases hr with
      | head => exact hg r0 (hall r0 (by simp))
      | tail _ hmem => exact hall r (List.mem_cons_of_mem r0 hmem)
    · rw [if_neg h0] at hr
      cases hr with
      | head => exact hall r0 (by simp)
      | tail _ hmem => exact ih (fun u hu => hall u (by simp [hu])) r hmem

theorem updateResult_find_pres (f f' : String)
    (g : ExtractionResult → ExtractionResult)
    (hg : ∀ r, (g r).source_file = r.source_file)
    (P : ExtractionResult → Prop) (hgP : ∀ r, P r → P (g r))
    (rs : List ExtractionResult) (r : ExtractionResult)
    (h : rs.find? (fun x => x.source_file == f') = some r) (hP : P r) :
    ∃ r', (updateResult f g rs).find? (fun x => x.source_file == f') = some r'
      ∧ P r' := by
  by_cases he : f = f'
  · subst he
    exact ⟨g r, updateResult_find_self f g hg rs r h, hgP r hP⟩
  · exact ⟨r, by rw [updateResult_find_other f f' g hg he rs]; exact h, hP⟩

theorem find?_map_sourcePres (f : String)
    (g : ExtractionResult → ExtractionResult)
    (hg : ∀ r, (g r).source_file = r.source_file) :
    ∀ rs : List ExtractionResult,
      (rs.map g).find? (fun x => x.source_file == f)
        = (rs.find? (fun x => x.source_file == f)).map g := by
  intro rs
  induction rs with
  | nil => rfl
  | cons r0 rest ih =>
    by_cases h0 : r0.source_file = f
    · rw [List.map_cons, List.find?_cons_of_pos _ (by simpa using (hg r0).trans h0),
        List.find?_cons_of_pos _ (by simpa using h0)]
      rfl
    · have hnot : ¬(g r0).source_file = f := by
        rw [hg r0]
        exact h0
      rw [List.map_cons, List.find?_cons_of_neg _ (by simpa using hnot),
        List.find?_cons_of_neg _ (by simpa using h0), ih]

theorem step_inv {env : Env} {re : RegexEngine} {kw pat : Option String}
    {cs ex : Bool} {f : String} {r : ExtractionResult}
    {opt : Option (List Chapter)}
    (h : phase1Step env re kw pat cs ex f = .ok (r, opt)) :
    r.source_file = f ∧ r.output_file = none
    ∧ (∀ m, opt = some m → m ≠ []) := by
  unfold phase1Step at h
  split at h
  · split at h
    · exact Except.noConfusion h
    · split at h
      · exact Except.noConfusion h
      · split at h
        · exact Except.noConfusion h
        · have h2 := Except.ok.inj h
          have hr : _ = r := congrArg Prod.fst h2
          have hopt : _ = opt := congrArg Prod.snd h2
          refine ⟨by rw [← hr], by rw [← hr], ?_⟩
          intro m hm
          rw [← hopt] at hm
          exact Option.noConfusion hm
        · have h2 := Except.ok.inj h
          have hr : _ = r := congrArg Prod.fst h2
          have hopt : _ = opt := congrArg Prod.snd h2
          refine ⟨by rw [← hr], by rw [← hr], ?_⟩
          intro m hm
          rw [← hopt] at hm
          rename_i matching _
          by_cases hM : matching.isEmpty = true
          · rw [if_pos hM] at hm
            exact Option.noConfusion hm
          · rw [if_neg hM] at hm
            have : matching = m := Option.some.inj hm
            rw [← this]
            intro hnil
            rw [hnil] at hM
            exact hM rfl
  · have h2 := Except.ok.inj h
    have hr : _ = r := congrArg Prod.fst h2
    have hopt : _ = opt := congrArg Prod.snd h2
    refine ⟨by rw [← hr], by rw [← hr], ?_⟩
    intro m hm
    rw [← hopt] at hm
    exact Option.noConfusion hm

theorem ph1_inv {env : Env} {re : RegexEngine} {kw pat : Option String}
    {cs ex : Bool} :
    ∀ {files : List String} {rs : List ExtractionResult}
      {fcs : List (String × List Chapter)} {tm : Nat},
      phase1 env re kw pat cs ex files = .ok (rs, fcs, tm) →
      rs.length = files.length
      ∧ (∀ r ∈ rs, r.output_file = none)
      ∧ (∀ p ∈ fcs, p.2 ≠ []
          ∧ ∃ r, rs.find? (fun x => x.source_file == p.1) = some r) := by
  intro files
  induction files with
  | nil =>
    intro rs fcs tm h
    have h2 := Except.ok.inj h
    have hrs : _ = rs := congrArg (fun q => q.1) h2
    have hf : _ = fcs := congrArg (fun q => q.2.1) h2
    refine ⟨by rw [← hrs]; rfl, ?_, ?_⟩
    · intro r hr
      rw [← hrs] at hr
      cases hr
    · intro p hp
      rw [← hf] at hp
      cases hp
  | cons g rest ih =>
    intro rs fcs tm h
    unfold phase1 at h
    cases hg : phase1Step env re kw pat cs ex g with
    | error e =>
      rw [hg] at h
      exact Except.noConfusion h
    | ok pr =>
      obtain ⟨r0, opt⟩ := pr
      rw [hg] at h
      cases hrest : phase1 env re kw pat cs ex rest with
      | error e =>
        rw [hrest] at h
        exact Except.noConfusion h
      | ok tr =>
        obtain ⟨rs2, fcs2, tm2⟩ := tr
        rw [hrest] at h
        obtain ⟨hsrc, hout, hoptne⟩ := step_inv hg
        obtain ⟨hlen, hall, hfcs⟩ := ih hrest
        have hfind2 : ∀ (q : String), (∃ u, rs2.find? (fun x => x.source_file == q) = some u) →
            ∃ u, ((r0 :: rs2).find? (fun x => x.source_file == q) = some u) := by
          intro q hq
          by_cases h0 : r0.source_file = q
          · exact ⟨r0, List.find?_cons_of_pos _ (by simpa using h0)⟩
          · obtain ⟨u, hu⟩ := hq
            exact ⟨u, by rw [List.find?_cons_of_neg _ (by simpa using h0)]; exact hu⟩
        cases opt with
        | none =>
          have h2 := Except.ok.inj h
          have hrs : _ = rs := congrArg (fun q => q.1) h2
          have hf : _ = fcs := congrArg (fun q => q.2.1) h2
          refine ⟨by rw [← hrs]; simpa using hlen, ?_, ?_⟩
          · intro r hr
            rw [← hrs] at hr
            cases hr with
            | head => exact hout
            | tail _ hmem => exact hall r hmem
          · intro p hp
            rw [← hf] at hp
            obtain ⟨hne, hex⟩ := hfcs p hp
            exact ⟨hne, by rw [← hrs]; exact hfind2 p.1 hex⟩
        | some matching =>
          have h2 := Except.ok.inj h
          have hrs : _ = rs := congrArg (fun q => q.1) h2
          have hf : _ = fcs := congrArg (fun q => q.2.1) h2
          refine ⟨by rw [← hrs]; simpa using hlen, ?_, ?_⟩
          · intro r hr
            rw [← hrs] at hr
            cases hr with
            | head => exact hout
            | tail _ hmem => exact hall r hmem
          · intro p hp
            rw [← hf] at hp
            cases hp with
            | head =>
              refine ⟨hoptne matching rfl, ?_⟩
              rw [← hrs]
              exact ⟨r0, List.find?_cons_of_pos _ (by simpa using hsrc)⟩
            | tail _ hmem =>
              obtain ⟨hne, hex⟩ := hfcs p hmem
              exact ⟨hne, by rw [← hrs]; exact hfind2 p.1 hex⟩

theorem extractFileSeq_err_none (env : Env) (f : String) :
    ∀ (chs : List Chapter) (ci : Nat),
      (extractFileSeq env f ci chs).2.2 = none →
      ∀ (k : Nat) (hk : k < chs.length),
        env.extractOk f (ci + k) (chs.get ⟨k, hk⟩) = true := by
  intro chs
  induction chs with
  | nil => intro ci _ k hk; cases hk
  | cons ch rest ih =>
    intro ci hnone k hk
    by_cases h0 : env.extractOk f ci ch = true
    · cases k with
      | zero => simpa using h0
      | succ j =>
        have hnone2 : (extractFileSeq env f (ci + 1) rest).2.2 = none := by
          unfold extractFileSeq at hnone
          rw [h0] at hnone
          simpa using hnone
        have := ih (ci + 1) hnone2 j (by simpa using hk)
        have harith : ci + 1 + j = ci + (j + 1) := by omega
        rw [harith] at this
        simpa using this
    · exfalso
      unfold extractFileSeq at hnone
      rw [Bool.eq_false_iff.mpr h0] at hnone
      simp at hnone

theorem extractFileSeq_allfail (env : Env) (f : String) (chs : List Chapter)
    (ci : Nat)
    (hfail : ∀ (k : Nat) (hk : k < chs.length),
      env.extractOk f (ci + k) (chs.get ⟨k, hk⟩) = false) :
    (extractFileSeq env f ci chs).1 = [] := by
  cases chs with
  | nil => rfl
  | cons ch rest =>
    have h0 : env.extractOk f ci ch = false := by
      simpa using hfail 0 (by simp)
    unfold extractFileSeq
    rw [h0]
    rfl

theorem mem_tasksForFile (f : String) :
    ∀ (chs : List Chapter) (g ci k : Nat) (hk : k < chs.length),
      ({ idx := g + k, file := f, chIdx := ci + k, chapter := chs.get ⟨k, hk⟩,
         seg := segName f (ci + k) } : Task) ∈ tasksForFile g f ci chs := by
  intro chs
  induction chs with
  | nil => intro g ci k hk; cases hk
  | cons ch rest ih =>
    intro g ci k hk
    cases k with
    | zero =>
      unfold tasksForFile
      simp
    | succ j =>
      have hj : j < rest.length := by simpa using hk
      have := ih (g + 1) (ci + 1) j hj
      have ha : g + 1 + j = g + (j + 1) := by omega
      have hb : ci + 1 + j = ci + (j + 1) := by omega
      rw [ha, hb] at this
      unfold tasksForFile
      exact List.mem_cons_of_mem _ this

theorem tasksForFile_sub :
    ∀ (fcs : List (String × List Chapter)) (g0 : Nat) (p : String × List Chapter),
      p ∈ fcs → ∃ g, ∀ t ∈ tasksForFile g p.1 0 p.2, t ∈ buildTasksAux g0 fcs := by
  intro fcs
  induction fcs with
  | nil => intro g0 p hp; cases hp
  | cons q rest ih =>
    intro g0 p hp
    obtain ⟨f0, chs0⟩ := q
    cases hp with
    | head =>
      refine ⟨g0, fun t ht => ?_⟩
      unfold buildTasksAux
      exact List.mem_append_left _ ht
    | tail _ hmem =>
      obtain ⟨g, hsub⟩ := ih (g0 + chs0.length) p hmem
      refine ⟨g, fun t ht => ?_⟩
      unfold buildTasksAux
      exact List.mem_append_right _ (hsub t ht)

theorem extractSegmentsSequential_allfail (env : Env) :
    ∀ (fcs : List (String × List Chapter)) (rs : List ExtractionResult),
      (∀ p ∈ fcs, ∀ (k : Nat) (hk : k < p.2.length),
        env.extractOk p.1 k (p.2.get ⟨k, hk⟩) = false) →
      (extractSegmentsSequential env fcs rs).1 = [] := by
  intro fcs
  induction fcs with
  | nil => intro rs _; rfl
  | cons p rest ih =>
    intro rs hfail
    obtain ⟨f, chs⟩ := p
    have hfile : (extractFileSeq env f 0 chs).1 = [] := by
      apply extractFileSeq_allfail env f chs 0
      intro k hk
      have := hfail (f, chs) (by simp) k hk
      simpa using this
    unfold extractSegmentsSequential
    rw [hfile, ih _ (fun q hq => hfail q (by simp [hq]))]
    rfl

theorem processCompletions_allfail (env : Env) :
    ∀ (comps : List Task) (segres : List (Nat × String))
      (errs : List (String × String)) (rs : List ExtractionResult),
      (∀ t ∈ comps, env.extractOk t.file t.chIdx t.chapter = false) →
      (processCompletions env comps segres errs rs).1 = segres := by
  intro comps
  induction comps with
  | nil => intro segres errs rs _; rfl
  | cons t rest ih =>
    intro segres errs rs hfail
    have h0 : env.extractOk t.file t.chIdx t.chapter = false := hfail t (by simp)
    unfold processCompletions
    rw [h0]
    exact ih _ _ _ (fun u hu => hfail u (by simp [hu]))

theorem extractSegmentsParallel_allfail (env : Env)
    (fcs : List (String × List Chapter)) (rs : List ExtractionResult)
    (comps : List Task)
    (hfail : ∀ t ∈ comps, env.extractOk t.file t.chIdx t.chapter = false) :
    (extractSegmentsParallel env fcs rs comps).1 = [] := by
  unfold extractSegmentsParallel
  rw [processCompletions_allfail env comps [] [] rs hfail]
  rfl

theorem seqUpdate_length (env : Env) (f : String) (chs : List Chapter)
    (rs : List ExtractionResult) :
    (seqUpdate env f chs rs).length = rs.length := by
  unfold seqUpdate
  cases (extractFileSeq env f 0 chs).2.2
  · rw [updateResult_length]
  · rw [updateResult_length, updateResult_length]

theorem seqUpdate_forall (env : Env) (f : String) (chs : List Chapter)
    (P : ExtractionResult → Prop)
    (h1 : ∀ r L, P r → P { r with chapters_extracted := r.chapters_extracted ++ L })
    (h2 : ∀ r m, P r → P { r with success := false, error_message := some m })
    (rs : List ExtractionResult) (hall : ∀ r ∈ rs, P r) :
    ∀ r ∈ seqUpdate env f chs rs, P r := by
  unfold seqUpdate
  cases (extractFileSeq env f 0 chs).2.2
  · exact updateResult_forall f _ P (fun r hr => h1 r _ hr) rs hall
  · exact updateResult_forall f _ P (fun r hr => h2 r _ hr) _
      (updateResult_forall f _ P (fun r hr => h1 r _ hr) rs hall)

theorem extractSegmentsSequential_length (env : Env) :
    ∀ (fcs : List (String × List Chapter)) (rs : List ExtractionResult),
      (extractSegmentsSequential env fcs rs).2.length = rs.length := by
  intro fcs
  induction fcs with
  | nil => intro rs; rfl
  | cons p rest ih =>
    intro rs
    obtain ⟨f, chs⟩ := p
    unfold extractSegmentsSequential
    rw [ih, seqUpdate_length]

theorem extractSegmentsSequential_forall (env : Env)
    (P : ExtractionResult → Prop)
    (h1 : ∀ r L, P r → P { r with chapters_extracted := r.chapters_extracted ++ L })
    (h2 : ∀ r m, P r → P { r with success := false, error_message := some m }) :
    ∀ (fcs : List (String × List Chapter)) (rs : List ExtractionResult),
      (∀ r ∈ rs, P r) →
      ∀ r ∈ (extractSegmentsSequential env fcs rs).2, P r := by
  intro fcs
  induction fcs with
  | nil => intro rs hall; exact hall
  | cons p rest ih =>
    intro rs hall
    obtain ⟨f, chs⟩ := p
    unfold extractSegmentsSequential
    exact ih _ (seqUpdate_forall env f chs P h1 h2 rs hall)

theorem processCompletions_results_length (env : Env) :
    ∀ (comps : List Task) (segres : List (Nat × String))
      (errs : List (String × String)) (rs : List ExtractionResult),
      (processCompletions env comps segres errs rs).2.2.length = rs.length := by
  intro comps
  induction comps with
  | nil => intro segres errs rs; rfl
  | cons t rest ih =>
    intro segres errs rs
    unfold processCompletions
    cases h : env.extractOk t.file t.chIdx t.chapter
    · simp only [Bool.false_eq_true, if_false]
      exact ih _ _ _
    · simp only [if_true]
      rw [ih, updateResult_length]

theorem processCompletions_results_forall (env : Env)
    (P : ExtractionResult → Prop)
    (h1 : ∀ r L, P r → P { r with chapters_extracted := r.chapters_extracted ++ L }) :
    ∀ (comps : List Task) (segres : List (Nat × String))
      (errs : List (String × String)) (rs : List ExtractionResult),
      (∀ r ∈ rs, P r) →
      ∀ r ∈ (processCompletions env comps segres errs rs).2.2, P r := by
  intro comps
  induction comps with
  | nil => intro segres errs rs hall; exact hall
  | cons t rest ih =>
    intro segres errs rs hall
    unfold processCompletions
    cases h : env.extractOk t.file t.chIdx t.chapter
    · simp only [Bool.false_eq_true, if_false]
      exact ih _ _ _ hall
    · simp only [if_true]
      exact ih _ _ _
        (updateResult_forall t.file _ P (fun r hr => h1 r _ hr) rs hall)

theorem markFailed_length (errs : List (String × String)) :
    ∀ rs : List ExtractionResult, (markFailed errs rs).length = rs.length := by
  induction errs with
  | nil => intro rs; rfl
  | cons e rest ih =>
    intro rs
    unfold markFailed
    rw [List.foldl_cons]
    have := ih (updateResult e.1
      (fun r => { r with success := false, error_message := some e.2 }) rs)
    unfold markFailed at this
    rw [this, updateResult_length]

theorem markFailed_forall (P : ExtractionResult → Prop)
    (h2 : ∀ r m, P r → P { r with success := false, error_message := some m }) :
    ∀ (errs : List (String × String)) (rs : List ExtractionResult),
      (∀ r ∈ rs, P r) → ∀ r ∈ markFailed errs rs, P r := by
  intro errs
  induction errs with
  | nil => intro rs hall; exact hall
  | cons e rest ih =>
    intro rs hall
    unfold markFailed
    rw [List.foldl_cons]
    have step := updateResult_forall e.1
      (fun r => { r with success := false, error_message := some e.2 }) P
      (fun r hr => h2 r _ hr) rs hall
    have := ih _ step
    unfold markFailed at this
    exact this

theorem seqUpdate_find_some (env : Env) (f0 : String) (chs0 : List Chapter)
    (f : String) (rs : List ExtractionResult)
    (h : ∃ r, rs.find? (fun x => x.source_file == f) = some r) :
    ∃ r', (seqUpdate env f0 chs0 rs).find? (fun x => x.source_file == f)
      = some r' := by
  obtain ⟨r, hr⟩ := h
  unfold seqUpdate
  cases (extractFileSeq env f0 0 chs0).2.2 with
  | none =>
    obtain ⟨r', h', -⟩ := updateResult_find_pres f0 f
      (fun x => { x with
        chapters_extracted := x.chapters_extracted ++ (extractFileSeq env f0 0 chs0).2.1 })
      (fun _ => rfl) (fun _ => True) (fun _ _ => trivial) rs r hr trivial
    exact ⟨r', h'⟩
  | some m =>
    obtain ⟨r1, h1, -⟩ := updateResult_find_pres f0 f
      (fun x => { x with
        chapters_extracted := x.chapters_extracted ++ (extractFileSeq env f0 0 chs0).2.1 })
      (fun _ => rfl) (fun _ => True) (fun _ _ => trivial) rs r hr trivial
    obtain ⟨r2, h2, -⟩ := updateResult_find_pres f0 f
      (fun x => { x with success := false, error_message := some m })
      (fun _ => rfl) (fun _ => True) (fun _ _ => trivial) _ r1 h1 trivial
    exact ⟨r2, h2⟩

theorem seqUpdate_keepsQ (env : Env) (f0 : String) (chs0 : List Chapter)
    (f : String) (rs : List ExtractionResult)
    (h : ∃ r, rs.find? (fun x => x.source_file == f) = some r
      ∧ r.success = false ∧ r.error_message ≠ none) :
    ∃ r', (seqUpdate env f0 chs0 rs).find? (fun x => x.source_file == f) = some r'
      ∧ r'.success = false ∧ r'.error_message ≠ none := by
  obtain ⟨r, hr, hQ⟩ := h
  unfold seqUpdate
  cases (extractFileSeq env f0 0 chs0).2.2 with
  | none =>
    exact updateResult_find_pres f0 f
      (fun x => { x with
        chapters_extracted := x.chapters_extracted ++ (extractFileSeq env f0 0 chs0).2.1 })
      (fun _ => rfl)
      (fun x => x.success = false ∧ x.error_message ≠ none)
      (fun x hx => hx) rs r hr hQ
  | some m =>
    obtain ⟨r1, h1, hQ1⟩ := updateResult_find_pres f0 f
      (fun x => { x with
        chapters_extracted := x.chapters_extracted ++ (extractFileSeq env f0 0 chs0).2.1 })
      (fun _ => rfl)
      (fun x => x.success = false ∧ x.error_message ≠ none)
      (fun x hx => hx) rs r hr hQ
    exact updateResult_find_pres f0 f
      (fun x => { x with success := false, error_message := some m })
      (fun _ => rfl)
      (fun x => x.success = false ∧ x.error_message ≠ none)
      (fun x _ => ⟨rfl, by simp⟩) _ r1 h1 hQ1

theorem extractSegmentsSequential_keepsQ (env : Env) (f : String) :
    ∀ (fcs : List (String × List Chapter)) (rs : List ExtractionResult),
      (∃ r, rs.find? (fun x => x.source_file == f) = some r
        ∧ r.success = false ∧ r.error_message ≠ none) →
      ∃ r', (extractSegmentsSequential env fcs rs).2.find?
          (fun x => x.source_file == f) = some r'
        ∧ r'.success = false ∧ r'.error_message ≠ none := by
  intro fcs
  induction fcs with
  | nil => intro rs h; exact h
  | cons p rest ih =>
    intro rs h
    obtain ⟨f0, chs0⟩ := p
    unfold extractSegmentsSequential
    exact ih _ (seqUpdate_keepsQ env f0 chs0 f rs h)

theorem extractSegmentsSequential_marks (env : Env) (f : String)
    (chs : List Chapter) :
    ∀ (fcs : List (String × List Chapter)) (rs : List ExtractionResult),
      (f, chs) ∈ fcs →
      (∃ r0, rs.find? (fun x => x.source_file == f) = some r0) →
      (∃ k, ∃ hk : k < chs.length, env.extractOk f k (chs.get ⟨k, hk⟩) = false) →
      ∃ r', (extractSegmentsSequential env fcs rs).2.find?
          (fun x => x.source_file == f) = some r'
        ∧ r'.success = false ∧ r'.error_message ≠ none := by
  intro fcs
  induction fcs with
  | nil => intro rs hp; cases hp
  | cons p rest ih =>
    intro rs hp hfound hfail
    cases hp with
    | head =>
      unfold extractSegmentsSequential
      have herrne : (extractFileSeq env f 0 chs).2.2 ≠ none := by
        intro hnone
        obtain ⟨k, hk, hbad⟩ := hfail
        have := extractFileSeq_err_none env f chs 0 hnone k hk
        rw [Nat.zero_add] at this
        rw [this] at hbad
        exact Bool.noConfusion hbad
      cases herr : (extractFileSeq env f 0 chs).2.2 with
      | none => exact absurd herr herrne
      | some m =>
        apply extractSegmentsSequential_keepsQ env f rest
        obtain ⟨r0, hr0⟩ := hfound
        have h1 := updateResult_find_self f
          (fun r => { r with
            chapters_extracted := r.chapters_extracted ++ (extractFileSeq env f 0 chs).2.1 })
          (fun _ => rfl) rs r0 hr0
        have h2 := updateResult_find_self f
          (fun r => { r with success := false, error_message := some m })
          (fun _ => rfl) _ _ h1
        have hfind : (seqUpdate env f chs rs).find? (fun x => x.source_file == f)
            = some ((fun r => ({ r with success := false, error_message := some m }
                : ExtractionResult))
              ((fun r => ({ r with chapters_extracted :=
                  r.chapters_extracted ++ (extractFileSeq env f 0 chs).2.1 }
                : ExtractionResult)) r0)) := by
          unfold seqUpdate
          rw [herr]
          exact h2
        exact ⟨_, hfind, rfl, by simp⟩
    | tail _ hmem =>
      obtain ⟨f0, chs0⟩ := p
      unfold extractSegmentsSequential
      exact ih _ hmem (seqUpdate_find_some env f0 chs0 f rs hfound) hfail

theorem dictInsert_keys_self {α β : Type} [DecidableEq α] (k : α) (v : β) :
    ∀ s : List (α × β), k ∈ (dictInsert k v s).map Prod.fst := by
  intro s
  induction s with
  | nil => simp [dictInsert]
  | cons p rest ih =>
    obtain ⟨k0, v0⟩ := p
    unfold dictInsert
    by_cases h : k0 = k
    · rw [if_pos h]
      simp [h]
    · rw [if_neg h]
      simpa using Or.inr ih

theorem dictInsert_keys_mono {α β : Type} [DecidableEq α] (k k' : α) (v : β) :
    ∀ s : List (α × β), k' ∈ s.map Prod.fst →
      k' ∈ (dictInsert k v s).map Prod.fst := by
  intro s
  induction s with
  | nil => intro h; cases h
  | cons p rest ih =>
    intro h
    obtain ⟨k0, v0⟩ := p
    unfold dictInsert
    by_cases hk : k0 = k
    · rw [if_pos hk]
      simpa using h
    · rw [if_neg hk]
      simp only [List.map_cons, List.mem_cons] at h ⊢
      rcases h with h | h
      · exact Or.inl h
      · exact Or.inr (ih h)

theorem processCompletions_errs_mono (env : Env) :
    ∀ (comps : List Task) (segres : List (Nat × String))
      (errs : List (String × String)) (rs : List ExtractionResult) (k : String),
      k ∈ errs.map Prod.fst →
      k ∈ ((processCompletions env comps segres errs rs).2.1).map Prod.fst := by
  intro comps
  induction comps with
  | nil => intro segres errs rs k h; exact h
  | cons t rest ih =>
    intro segres errs rs k h
    unfold processCompletions
    cases ho : env.extractOk t.file t.chIdx t.chapter
    · simp only [Bool.false_eq_true, if_false]
      exact ih _ _ _ k (dictInsert_keys_mono t.file k _ errs h)
    · simp only [if_true]
      exact ih _ _ _ k h

theorem processCompletions_errs_mem (env : Env) :
    ∀ (comps : List Task) (segres : List (Nat × String))
      (errs : List (String × String)) (rs : List ExtractionResult) (t : Task),
      t ∈ comps → env.extractOk t.file t.chIdx t.chapter = false →
      t.file ∈ ((processCompletions env comps segres errs rs).2.1).map Prod.fst := by
  intro comps
  induction comps with
  | nil => intro segres errs rs t ht; cases ht
  | cons u rest ih =>
    intro segres errs rs t ht hfail_t
    cases ht with
    | head =>
      unfold processCompletions
      rw [hfail_t]
      simp only [Bool.false_eq_true, if_false]
      exact processCompletions_errs_mono env rest _ _ _ u.file
        (dictInsert_keys_self u.file _ errs)
    | tail _ hmem =>
      unfold processCompletions
      cases ho : env.extractOk u.file u.chIdx u.chapter
      · simp only [Bool.false_eq_true, if_false]
        exact ih _ _ _ t hmem hfail_t
      · simp only [if_true]
        exact ih _ _ _ t hmem hfail_t

theorem processCompletions_find_some (env : Env) (f : String) :
    ∀ (comps : List Task) (segres : List (Nat × String))
      (errs : List (String × String)) (rs : List ExtractionResult),
      (∃ r, rs.find? (fun x => x.source_file == f) = some r) →
      ∃ r', ((processCompletions env comps segres errs rs).2.2).find?
        (fun x => x.source_file == f) = some r' := by
  intro comps
  induction comps with
  | nil => intro segres errs rs h; exact h
  | cons t rest ih =>
    intro segres errs rs h
    unfold processCompletions
    cases ho : env.extractOk t.file t.chIdx t.chapter
    · simp only [Bool.false_eq_true, if_false]
      exact ih _ _ _ h
    · simp only [if_true]
      obtain ⟨r, hr⟩ := h
      obtain ⟨r', h', -⟩ := updateResult_find_pres t.file f
        (fun x => { x with chapters_extracted := x.chapters_extracted ++ [t.chapter] })
        (fun _ => rfl) (fun _ => True) (fun _ _ => trivial) rs r hr trivial
      exact ih _ _ _ ⟨r', h'⟩

theorem markFailed_keepsQ (f : String) :
    ∀ (errs : List (String × String)) (rs : List ExtractionResult),
      (∃ r, rs.find? (fun x => x.source_file == f) = some r
        ∧ r.success = false ∧ r.error_message ≠ none) →
      ∃ r', (markFailed errs rs).find? (fun x => x.source_file == f) = some r'
        ∧ r'.success = false ∧ r'.error_message ≠ none := by
  intro errs
  induction errs with
  | nil => intro rs h; exact h
  | cons e rest ih =>
    intro rs h
    obtain ⟨r, hr, hQ⟩ := h
    unfold markFailed
    rw [List.foldl_cons]
    have step := updateResult_find_pres e.1 f
      (fun x => { x with success := false, error_message := some e.2 })
      (fun _ => rfl)
      (fun x => x.success = false ∧ x.error_message ≠ none)
      (fun x _ => ⟨rfl, by simp⟩) rs r hr hQ
    have := ih _ step
    unfold markFailed at this
    exact this

theorem markFailed_marks (f : String) :
    ∀ (errs : List (String × String)) (rs : List ExtractionResult),
      f ∈ errs.map Prod.fst →
      (∃ r, rs.find? (fun x => x.source_file == f) = some r) →
      ∃ r', (markFailed errs rs).find? (fun x => x.source_file == f) = some r'
        ∧ r'.success = false ∧ r'.error_message ≠ none := by
  intro errs
  induction errs with
  | nil => intro rs h; cases h
  | cons e rest ih =>
    intro rs hmem hfound
    obtain ⟨r, hr⟩ := hfound
    by_cases he : e.1 = f
    · subst he
      unfold markFailed
      rw [List.foldl_cons]
      have h1 := updateResult_find_self e.1
        (fun x => { x with success := false, error_message := some e.2 })
        (fun _ => rfl) rs r hr
      have h2 := markFailed_keepsQ e.1 rest _ ⟨_, h1, rfl, by simp⟩
      unfold markFailed at h2
      exact h2
    · have hmem2 : f ∈ rest.map Prod.fst := by
        simp only [List.map_cons, List.mem_cons] at hmem
        rcases hmem with hmem | hmem
        · exact absurd hmem.symm he
        · exact hmem
      unfold markFailed
      rw [List.foldl_cons]
      have hkeep : (updateResult e.1
          (fun x => { x with success := false, error_message := some e.2 }) rs).find?
            (fun x => x.source_file == f) = some r := by
        rw [updateResult_find_other e.1 f
          (fun x => { x with success := false, error_message := some e.2 })
          (fun _ => rfl) he]
        exact hr
      have := ih _ hmem2 ⟨r, hkeep⟩
      unfold markFailed at this
      exact this

theorem extractSegmentsParallel_marks (env : Env)
    (fcs : List (String × List Chapter)) (rs : List ExtractionResult)
    (comps : List Task) (t : Task) (ht : t ∈ comps)
    (hfail_t : env.extractOk t.file t.chIdx t.chapter = false)
    (hfound : ∃ r, rs.find? (fun x => x.source_file == t.file) = some r) :
    ∃ r', (extractSegmentsParallel env fcs rs comps).2.find?
        (fun x => x.source_file == t.file) = some r'
      ∧ r'.success = false ∧ r'.error_message ≠ none := by
  unfold extractSegmentsParallel
  exact markFailed_marks t.file _ _
    (processCompletions_errs_mem env comps [] [] rs t ht hfail_t)
    (processCompletions_find_some env t.file comps [] [] rs hfound)

theorem extractFileSeqStrict_err (env : Env) (f : String) :
    ∀ (matching : List Chapter) (ci : Nat),
      (∃ k, ∃ hk : k < matching.length,
        env.extractOk f (ci + k) (matching.get ⟨k, hk⟩) = false) →
      ∃ e, extractFileSeqStrict env f ci matching = .error e := by
  intro matching
  induction matching with
  | nil =>
    intro ci h
    obtain ⟨k, hk, -⟩ := h
    cases hk
  | cons ch rest ih =>
    intro ci h
    cases h0 : env.extractOk f ci ch with
    | false =>
      refine ⟨.extractionError (extractFailMsg ch (env.extractStderr f ci ch)), ?_⟩
      unfold extractFileSeqStrict
      rw [h0]
      rfl
    | true =>
      obtain ⟨k, hk, hbad⟩ := h
      cases k with
      | zero =>
        exfalso
        simp only [List.get] at hbad
        rw [Nat.add_zero] at hbad
        rw [h0] at hbad
        exact Bool.noConfusion hbad
      | succ j =>
        have hj : j < rest.length := by simpa using hk
        have harith : ci + (j + 1) = ci + 1 + j := by omega
        rw [harith] at hbad
        obtain ⟨e, he⟩ := ih (ci + 1) ⟨j, hj, hbad⟩
        refine ⟨e, ?_⟩
        unfold extractFileSeqStrict
        rw [h0, he]
        rfl

theorem sepGo_err (env : Env) (re : RegexEngine) (kw pat : Option String)
    (od : Option String) (cs ex : Bool) (suf : String) (f : String)
    (raws : List RawChapter) (matching : List Chapter)
    (hex : env.fileExists f = true)
    (hprobe : env.probe f = .ok raws)
    (hlen : ¬(chaptersFromProbe raws).length = 0)
    (hdisp : filterChaptersDispatch re (chaptersFromProbe raws) kw pat cs ex
      = .ok matching)
    (hmne : matching.isEmpty = false)
    (hstrict : ∃ e0, extractFileSeqStrict env f 0 matching = .error e0) :
    ∀ files : List String, f ∈ files →
      ∃ e, sepGo env re kw pat od cs ex suf files = .error e := by
  intro files
  induction files with
  | nil => intro hf; cases hf
  | cons g rest ih =>
    intro hf
    cases hf with
    | head =>
      obtain ⟨e0, he0⟩ := hstrict
      refine ⟨e0, ?_⟩
      unfold sepGo
      rw [hex, hprobe]
      simp only [if_true]
      rw [if_neg hlen, hdisp]
      simp only [hmne, Bool.false_eq_true, if_false]
      rw [he0]
    | tail _ hmem =>
      obtain ⟨e, he⟩ := ih hmem
      by_cases hexg : env.fileExists g = true
      · cases hprobeg : env.probe g with
        | error m =>
          refine ⟨.extractionError m, ?_⟩
          unfold sepGo
          rw [hexg, hprobeg]
          rfl
        | ok rawsg =>
          by_cases hleng : (chaptersFromProbe rawsg).length = 0
          · refine ⟨.extractionError ("No chapter information found in " ++ g), ?_⟩
            unfold sepGo
            rw [hexg, hprobeg]
            simp only [if_true]
            rw [if_pos hleng]
          · cases hdispg : filterChaptersDispatch re (chaptersFromProbe rawsg) kw pat cs ex with
            | error e1 =>
              cases e1 with
              | extractionError m =>
                refine ⟨.extractionError m, ?_⟩
                unfold sepGo
                rw [hexg, hprobeg]
                simp only [if_true]
                rw [if_neg hleng, hdispg]
              | unsupportedFormat m =>
                refine ⟨e, ?_⟩
                unfold sepGo
                rw [hexg, hprobeg]
                simp only [if_true]
                rw [if_neg hleng, hdispg, he]
              | valueError m =>
                refine ⟨e, ?_⟩
                unfold sepGo
                rw [hexg, hprobeg]
                simp only [if_true]
                rw [if_neg hleng, hdispg, he]
              | regexError m =>
                refine ⟨e, ?_⟩
                unfold sepGo
                rw [hexg, hprobeg]
                simp only [if_true]
                rw [if_neg hleng, hdispg, he]
            | ok matchingg =>
              by_cases hmg : matchingg.isEmpty = true
              · refine ⟨e, ?_⟩
                unfold sepGo
                rw [hexg, hprobeg]
                simp only [if_true]
                rw [if_neg hleng, hdispg]
                simp only [hmg, if_true]
                rw [he]
              · cases hstrictg : extractFileSeqStrict env g 0 matchingg with
                | error e2 =>
                  refine ⟨e2, ?_⟩
                  unfold sepGo
                  rw [hexg, hprobeg]
                  simp only [if_true]
                  rw [if_neg hleng, hdispg]
                  simp only [Bool.not_eq_true] at hmg
                  simp only [hmg, Bool.false_eq_true, if_false]
                  rw [hstrictg]
                | ok segs =>
                  cases hmergeg : mergeSegmentsModel env segs (sepOutName od g suf) with
                  | error e3 =>
                    refine ⟨e3, ?_⟩
                    unfold sepGo
                    rw [hexg, hprobeg]
                    simp only [if_true]
                    rw [if_neg hleng, hdispg]
                    simp only [Bool.not_eq_true] at hmg
                    simp only [hmg, Bool.false_eq_true, if_false]
                    simp only [hstrictg, hmergeg]
                  | ok u =>
                    refine ⟨e, ?_⟩
                    unfold sepGo
                    rw [hexg, hprobeg]
                    simp only [if_true]
                    rw [if_neg hleng, hdispg]
                    simp only [Bool.not_eq_true] at hmg
                    simp only [hmg, Bool.false_eq_true, if_false]
                    simp only [hstrictg, hmergeg, he]
      · refine ⟨e, ?_⟩
        unfold sepGo
        rw [Bool.eq_false_iff.mpr hexg]
        simp only [Bool.false_eq_true, if_false]
        rw [he]

theorem trace_segments_nonempty (env : Env) (re : RegexEngine)
    (files : List String) (out : String) (kw pat : Option String)
    (cs ex par : Bool) (comps : List Task) :
    ∀ c ∈ (extract_and_merge_traced env re files out kw pat cs ex par comps).2,
      c.1 ≠ [] := by
  intro c hc
  unfold extract_and_merge_traced at hc
  split at hc
  · cases hc
  · split at hc
    · cases hc
    · split at hc
      · cases hc
      · split at hc
        · cases hc
        · rename_i hemp
          split at hc
          · simp only [List.mem_singleton] at hc
            subst hc
            intro hnil
            apply hemp
            rw [hnil]
            rfl
          · simp only [List.mem_singleton] at hc
            subst hc
            intro hnil
            apply hemp
            rw [hnil]
            rfl

theorem phase2Segments_length (env : Env) (fcs : List (String × List Chapter))
    (rs : List ExtractionResult) (comps : List Task) (par : Bool) :
    (phase2Segments env fcs rs comps par).2.length = rs.length := by
  unfold phase2Segments
  cases par
  · simp only [Bool.false_eq_true, if_false]
    exact extractSegmentsSequential_length env fcs rs
  · simp only [if_true]
    unfold extractSegmentsParallel
    rw [markFailed_length, processCompletions_results_length]

theorem phase2Segments_forall_output (env : Env)
    (fcs : List (String × List Chapter)) (rs : List ExtractionResult)
    (comps : List Task) (par : Bool)
    (hall : ∀ r ∈ rs, r.output_file = none) :
    ∀ r ∈ (phase2Segments env fcs rs comps par).2, r.output_file = none := by
  unfold phase2Segments
  cases par
  · simp only [Bool.false_eq_true, if_false]
    exact extractSegmentsSequential_forall env (fun r => r.output_file = none)
      (fun r L h => h) (fun r m h => h) fcs rs hall
  · simp only [if_true]
    unfold extractSegmentsParallel
    exact markFailed_forall (fun r => r.output_file = none) (fun r m h => h) _ _
      (processCompletions_results_forall env (fun r => r.output_file = none)
        (fun r L h => h) comps [] [] rs hall)

theorem phase2Segments_marks (env : Env) (fcs : List (String × List Chapter))
    (rs : List ExtractionResult) (comps : List Task) (par : Bool)
    (f : String) (chs : List Chapter)
    (hperm : par = true → comps.Perm (buildTasks fcs))
    (hf : (f, chs) ∈ fcs)
    (hfound : ∃ r0, rs.find? (fun x => x.source_file == f) = some r0)
    (hfail : ∃ k, ∃ hk : k < chs.length,
      env.extractOk f k (chs.get ⟨k, hk⟩) = false) :
    ∃ r', (phase2Segments env fcs rs comps par).2.find?
        (fun x => x.source_file == f) = some r'
      ∧ r'.success = false ∧ r'.error_message ≠ none := by
  unfold phase2Segments
  cases par
  · simp only [Bool.false_eq_true, if_false]
    exact extractSegmentsSequential_marks env f chs fcs rs hf hfound hfail
  · simp only [if_true]
    obtain ⟨k, hk, hbad⟩ := hfail
    obtain ⟨g, hsub⟩ := tasksForFile_sub fcs 0 (f, chs) hf
    have htask := mem_tasksForFile f chs g 0 k hk
    have htmem := (hperm rfl).mem_iff.mpr (hsub _ htask)
    have hbad2 : env.extractOk f (0 + k) (chs.get ⟨k, hk⟩) = false := by
      rw [Nat.zero_add]
      exact hbad
    exact extractSegmentsParallel_marks env fcs rs comps _ htmem hbad2 hfound

theorem phase2Segments_allfail (env : Env) (fcs : List (String × List Chapter))
    (rs : List ExtractionResult) (comps : List Task) (par : Bool)
    (hperm : par = true → comps.Perm (buildTasks fcs))
    (hallfail : ∀ t ∈ buildTasks fcs,
      env.extractOk t.file t.chIdx t.chapter = false) :
    (phase2Segments env fcs rs comps par).1 = [] := by
  unfold phase2Segments
  cases par
  · simp only [Bool.false_eq_true, if_false]
    apply extractSegmentsSequential_allfail env fcs rs
    intro p hp k hk
    obtain ⟨g, hsub⟩ := tasksForFile_sub fcs 0 p hp
    have := hallfail _ (hsub _ (mem_tasksForFile p.1 p.2 g 0 k hk))
    simpa using this
  · simp only [if_true]
    apply extractSegmentsParallel_allfail env fcs rs comps
    intro t ht
    exact hallfail t ((hperm rfl).mem_iff.mp ht)

theorem assignOutput_keepsQ (out : String) (rs : List ExtractionResult)
    (f : String)
    (h : ∃ r, rs.find? (fun x => x.source_file == f) = some r
      ∧ r.success = false ∧ r.error_message ≠ none) :
    ∃ r', (assignOutput out rs).find? (fun x => x.source_file == f) = some r'
      ∧ r'.success = false ∧ r'.error_message ≠ none := by
  obtain ⟨r, hr, hQ⟩ := h
  unfold assignOutput
  rw [find?_map_sourcePres f
    (fun x => if x.success && !x.chapters_extracted.isEmpty then
      { x with output_file := some out } else x)
    (fun x => by cases hb : (x.success && !x.chapters_extracted.isEmpty) <;> simp [hb])
    rs, hr]
  have hcond : (r.success && !r.chapters_extracted.isEmpty) = false := by
    rw [hQ.1]
    rfl
  refine ⟨_, rfl, ?_⟩
  simp only [Option.map_some, hcond, Bool.false_eq_true, if_false]
  exact hQ

theorem extract_and_merge_ok_shape (env : Env) (re : RegexEngine)
    (files : List String) (out : String) (kw pat : Option String)
    (cs ex par : Bool) (comps : List Task)
    (rs : List ExtractionResult) (fcs : List (String × List Chapter)) (tm : Nat)
    (hentry : (isTruthyOpt kw || isTruthyOpt pat) = true)
    (hp1 : phase1 env re kw pat cs ex files = .ok (rs, fcs, tm))
    (htm : ¬tm = 0)
    (hmergeok : ∀ s o, env.mergeOk s o = true) :
    (extract_and_merge_traced env re files out kw pat cs ex par comps).1
      = .ok (phase2Segments env fcs rs comps par).2
    ∨ (extract_and_merge_traced env re files out kw pat cs ex par comps).1
      = .ok (assignOutput out (phase2Segments env fcs rs comps par).2) := by
  unfold extract_and_merge_traced
  rw [entry_cond_false hentry, hp1]
  simp only [Bool.false_eq_true, if_false]
  rw [if_neg htm]
  by_cases hemp : (phase2Segments env fcs rs comps par).1.isEmpty = true
  · left
    rw [if_pos hemp]
  · right
    rw [if_neg hemp]
    unfold mergeSegmentsModel
    rw [Bool.eq_false_iff.mpr hemp, hmergeok]
    rfl

/-- C10: when Phase 1 found at least one match but every Phase-2 segment
extraction fails, extract_and_merge neither raises nor invokes the merge
stage (its trace of concat invocations is empty, and in general every
invocation it ever traces has a nonempty segment list, so the empty-input
branch of _merge_segments is unreachable from it); the caller receives the
complete result list with output_file=None everywhere and success=false on
every matched file's result. -/
theorem allfail_returns_without_merge (env : Env) (re : RegexEngine)
    (files : List String) (out : String) (kw pat : Option String)
    (cs ex par : Bool) (comps : List Task)
    (rs : List ExtractionResult) (fcs : List (String × List Chapter)) (tm : Nat)
    (hentry : (isTruthyOpt kw || isTruthyOpt pat) = true)
    (hp1 : phase1 env re kw pat cs ex files = .ok (rs, fcs, tm))
    (htm : ¬tm = 0)
    (hperm : par = true → comps.Perm (buildTasks fcs))
    (hallfail : ∀ t ∈ buildTasks fcs,
      env.extractOk t.file t.chIdx t.chapter = false) :
    (extract_and_merge_traced env re files out kw pat cs ex par comps).2 = []
    ∧ (∃ rs', (extract_and_merge_traced env re files out kw pat cs ex par comps).1
          = .ok rs'
        ∧ rs'.length = files.length
        ∧ (∀ r ∈ rs', r.output_file = none)
        ∧ (∀ p ∈ fcs, ∃ r, rs'.find? (fun x => x.source_file == p.1) = some r
            ∧ r.success = false))
    ∧ (∀ c ∈ (extract_and_merge_traced env re files out kw pat cs ex par comps).2,
        c.1 ≠ []) := by
  have hsegs := phase2Segments_allfail env fcs rs comps par hperm hallfail
  have hemp : (phase2Segments env fcs rs comps par).1.isEmpty = true := by
    rw [hsegs]
    rfl
  have hR : extract_and_merge_traced env re files out kw pat cs ex par comps
      = (.ok (phase2Segments env fcs rs comps par).2, []) := by
    unfold extract_and_merge_traced
    rw [entry_cond_false hentry, hp1]
    simp only [Bool.false_eq_true, if_false]
    rw [if_neg htm, if_pos hemp]
  obtain ⟨hlen, hout, hfcs⟩ := ph1_inv hp1
  refine ⟨by rw [hR], ⟨(phase2Segments env fcs rs comps par).2, by rw [hR], ?_, ?_, ?_⟩, ?_⟩
  · rw [phase2Segments_length, hlen]
  · exact phase2Segments_forall_output env fcs rs comps par hout
  · intro p hp
    obtain ⟨hne, hfound⟩ := hfcs p hp
    have hpos : 0 < p.2.length := List.length_pos.mpr hne
    have hfail : ∃ k, ∃ hk : k < p.2.length,
        env.extractOk p.1 k (p.2.get ⟨k, hk⟩) = false := by
      refine ⟨0, hpos, ?_⟩
      obtain ⟨g, hsub⟩ := tasksForFile_sub fcs 0 p hp
      have := hallfail _ (hsub _ (mem_tasksForFile p.1 p.2 g 0 0 hpos))
      simpa using this
    obtain ⟨r', hfind, hQ⟩ := phase2Segments_marks env fcs rs comps par p.1 p.2
      hperm hp hfound hfail
    exact ⟨r', hfind, hQ.1⟩
  · exact trace_segments_nonempty env re files out kw pat cs ex par comps

/-- Witness: two matched files whose every extraction fails — the run
returns normally with an empty merge trace. -/
theorem allfail_returns_without_merge_witness :
    (phase1 envAllFail reBad (some "Episode") none false false ["a", "b"]
      = .ok ([{ source_file := "a", chapters_found := 2, chapters_matched := 2 },
              { source_file := "b", chapters_found := 1, chapters_matched := 1 }],
             demoFcs, 3)
     ∧ (∀ t ∈ buildTasks demoFcs,
         envAllFail.extractOk t.file t.chIdx t.chapter = false))
    ∧ (extract_and_merge_traced envAllFail reBad ["a", "b"] "out.mkv"
        (some "Episode") none false false true (buildTasks demoFcs)).2 = [] :=
  ⟨⟨rfl, by decide⟩,
   (allfail_returns_without_merge envAllFail reBad ["a", "b"] "out.mkv"
     (some "Episode") none false false true (buildTasks demoFcs)
     [{ source_file := "a", chapters_found := 2, chapters_matched := 2 },
      { source_file := "b", chapters_found := 1, chapters_matched := 1 }]
     demoFcs 3 rfl rfl (by decide) (fun _ => List.Perm.refl _) (by decide)).1⟩

/-- C1 (amended): in extract_and_merge — sequential or parallel — a failed
segment extraction is recovered locally: it is recorded on that file's
result (success=false with an error message) and the invocation still
returns a complete per-file result list, provided the final merge
invocation itself succeeds. In extract_to_separate_files, by contrast, a
failed segment extraction raises ChapterExtractionError and aborts the
whole invocation (see the counterexample). -/
theorem extraction_failure_recovery (env : Env) (re : RegexEngine)
    (files : List String) (out : String) (kw pat : Option String)
    (cs ex par : Bool) (comps : List Task)
    (rs : List ExtractionResult) (fcs : List (String × List Chapter)) (tm : Nat)
    (f : String) (chs : List Chapter)
    (hentry : (isTruthyOpt kw || isTruthyOpt pat) = true)
    (hp1 : phase1 env re kw pat cs ex files = .ok (rs, fcs, tm))
    (htm : ¬tm = 0)
    (hperm : par = true → comps.Perm (buildTasks fcs))
    (hmergeok : ∀ s o, env.mergeOk s o = true)
    (hf : (f, chs) ∈ fcs)
    (hfail : ∃ k, ∃ hk : k < chs.length,
      env.extractOk f k (chs.get ⟨k, hk⟩) = false) :
    (∃ rs', (extract_and_merge_traced env re files out kw pat cs ex par comps).1
        = .ok rs'
      ∧ rs'.length = files.length
      ∧ ∃ r, rs'.find? (fun x => x.source_file == f) = some r
          ∧ r.success = false ∧ r.error_message ≠ none)
    ∧ (∀ (env2 : Env) (re2 : RegexEngine) (files2 : List String)
        (kw2 pat2 od : Option String) (cs2 ex2 : Bool) (suf f2 : String)
        (raws2 : List RawChapter) (matching2 : List Chapter),
        (isTruthyOpt kw2 || isTruthyOpt pat2) = true →
        f2 ∈ files2 →
        env2.fileExists f2 = true →
        env2.probe f2 = .ok raws2 →
        ¬(chaptersFromProbe raws2).length = 0 →
        filterChaptersDispatch re2 (chaptersFromProbe raws2) kw2 pat2 cs2 ex2
          = .ok matching2 →
        matching2.isEmpty = false →
        (∃ k, ∃ hk : k < matching2.length,
          env2.extractOk f2 k (matching2.get ⟨k, hk⟩) = false) →
        ∃ e, extract_to_separate_files env2 re2 files2 kw2 pat2 od cs2 ex2 suf
          = .error e) := by
  constructor
  · obtain ⟨hlen, hout, hfcs⟩ := ph1_inv hp1
    obtain ⟨-, hfound⟩ := hfcs (f, chs) hf
    have hmark := phase2Segments_marks env fcs rs comps par f chs hperm hf
      hfound hfail
    rcases extract_and_merge_ok_shape env re files out kw pat cs ex par comps
        rs fcs tm hentry hp1 htm hmergeok with hok | hok
    · obtain ⟨r', hfind, hQ⟩ := hmark
      exact ⟨_, hok, by rw [phase2Segments_length, hlen], r', hfind, hQ⟩
    · obtain ⟨r', hfind, hQ⟩ := assignOutput_keepsQ out _ f hmark
      refine ⟨_, hok, ?_, r', hfind, hQ⟩
      unfold assignOutput
      rw [List.length_map, phase2Segments_length, hlen]
  · intro env2 re2 files2 kw2 pat2 od cs2 ex2 suf f2 raws2 matching2
      hentry2 hf2 hex2 hprobe2 hlen2 hdisp2 hmne2 hfail2
    have hstrict : ∃ e0, extractFileSeqStrict env2 f2 0 matching2 = .error e0 := by
      apply extractFileSeqStrict_err env2 f2 matching2 0
      obtain ⟨k, hk, hbad⟩ := hfail2
      refine ⟨k, hk, ?_⟩
      rw [Nat.zero_add]
      exact hbad
    obtain ⟨e, he⟩ := sepGo_err env2 re2 kw2 pat2 od cs2 ex2 suf f2 raws2
      matching2 hex2 hprobe2 hlen2 hdisp2 hmne2 hstrict files2 hf2
    refine ⟨e, ?_⟩
    unfold extract_to_separate_files
    rw [entry_cond_false hentry2]
    simp only [Bool.false_eq_true, if_false]
    exact he

/-- Witness: on the two-chapter file "a" whose second extraction fails,
extract_and_merge returns a complete result list with the failure recorded,
while extract_to_separate_files raises. -/
theorem extraction_failure_recovery_witness :
    (phase1 envPartial reBad (some "Episode") none false false ["a"]
      = .ok ([{ source_file := "a", chapters_found := 2, chapters_matched := 2 }],
             [("a", [chEp1, chEp2])], 2))
    ∧ (∃ rs', (extract_and_merge_traced envPartial reBad ["a"] "out.mkv"
          (some "Episode") none false false false []).1 = .ok rs'
        ∧ rs'.length = (["a"] : List String).length
        ∧ ∃ r, rs'.find? (fun x => x.source_file == "a") = some r
            ∧ r.success = false ∧ r.error_message ≠ none)
    ∧ (∃ e, extract_to_separate_files envPartial reBad ["a"] (some "Episode")
        none none false false "_filtered" = .error e) := by
  have h := extraction_failure_recovery envPartial reBad ["a"] "out.mkv"
    (some "Episode") none false false false []
    [{ source_file := "a", chapters_found := 2, chapters_matched := 2 }]
    [("a", [chEp1, chEp2])] 2 "a" [chEp1, chEp2]
    rfl rfl (by decide) (fun hpar => absurd hpar (by decide))
    (fun _ _ => rfl) (by decide) ⟨1, by decide, by decide⟩
  exact ⟨rfl, h.1,
    h.2 envPartial reBad ["a"] (some "Episode") none none false false
      "_filtered" "a" [rawEp1, rawEp2] [chEp1, chEp2]
      rfl (by decide) rfl rfl (by decide) rfl rfl ⟨1, by decide, by decide⟩⟩

/-- Counterexample to C1 as stated: in extract_to_separate_files, the
failed extraction of the second chapter of "a" is not recovered locally —
the invocation raises ChapterExtractionError instead of returning a result
list. -/
theorem separate_files_failure_counterexample :
    extract_to_separate_files envPartial reBad ["a"] (some "Episode") none none
        false false "_filtered"
      = .error (.extractionError "Failed to extract chapter Episode 2: boom") := rfl

end Chaptersaw
